import Mathlib

/-!
# deepl_cli_translator: a shallow embedding of `utils.go`, `cli.go`, `main.go`, `gui.go`
and `translator.go`

* Go strings and `[]byte` values are byte sequences (`GoString`). The two regular expressions
  of the program work on the runes that `unicode/utf8` decodes from those bytes.
* Go `int` is the 64-bit two's-complement integer, embedded as `Int` with `wrap64` applied to
  the arithmetic results that can leave that range (a difference of two lengths of which the
  second is at most the first cannot). Theorems about the chunk loop take the input below
  2^62 bytes, as every slice a Go process can hold is.
* A Go function returning `(T, error)` returns `Ret.ret value err`, or `Ret.panic` when it
  panics.
* The network, the file system and the Go standard library calls whose result the program
  only passes on (`json`, `mime`, `flag`, `http`) are fields of `Env`; what a run does is the
  list of its `Event`s, in order.
* Of the window of `gui.go` the model keeps what the translate button reads and writes: the
  texts of three widgets, the dialogs shown and the remote calls made.
-/

namespace DeepL

/-! ## Go primitives -/

/-- A Go `string` or `[]byte`: a finite sequence of bytes. -/
abbrev GoString := List UInt8

/-- The bytes (UTF-8) of a string literal of the source. -/
def goStr (s : String) : GoString := s.data.flatMap String.utf8EncodeChar

/-- Reduction of an integer to the range of Go's 64-bit `int`. -/
def wrap64 (x : Int) : Int := (x + 2 ^ 63) % 2 ^ 64 - 2 ^ 63

/-- Go's `len` of a string or slice. -/
def len (s : GoString) : Int := (s.length : Int)

/-- The slice expression `s[lo:hi]`; `none` when Go panics with "slice bounds out of range". -/
def slice (s : GoString) (lo hi : Int) : Option GoString :=
  if 0 ≤ lo ∧ lo ≤ hi ∧ hi ≤ len s then some ((s.drop lo.toNat).take (hi.toNat - lo.toNat))
  else none

/-- The decimal text of an integer, as printed by the `%d` verb. -/
def itoa (n : Int) : GoString := goStr (toString n)

/-- What a Go function with results `(T, error)` does: it returns a value and an error
(`none` is `nil`), or it panics. -/
inductive Ret (α : Type) where
  | ret (value : α) (err : Option GoString)
  | panic (msg : GoString)
  deriving DecidableEq

/-! ## UTF-8 decoding and the two regular expressions -/

/-- Entry of the `first` table of `unicode/utf8` for a leading byte. -/
inductive First where
  | ascii
  | invalid
  | lead (size lo hi : Nat)
  deriving DecidableEq

/-- The `first` table of `unicode/utf8`: for the leading byte of a multi-byte sequence, the
length of the sequence and the accepted range of its second byte. -/
def first (b : UInt8) : First :=
  let x := b.toNat
  if x < 0x80 then .ascii
  else if x < 0xC2 then .invalid
  else if x < 0xE0 then .lead 2 0x80 0xBF
  else if x = 0xE0 then .lead 3 0xA0 0xBF
  else if x < 0xED then .lead 3 0x80 0xBF
  else if x = 0xED then .lead 3 0x80 0x9F
  else if x < 0xF0 then .lead 3 0x80 0xBF
  else if x = 0xF0 then .lead 4 0x90 0xBF
  else if x < 0xF4 then .lead 4 0x80 0xBF
  else if x = 0xF4 then .lead 4 0x80 0x8F
  else .invalid

/-- Continuation byte test (`locb <= b <= hicb`). -/
def isCont (b : UInt8) : Bool := 0x80 ≤ b.toNat && b.toNat ≤ 0xBF

/-- The width returned by `utf8.DecodeRuneInString`: the number of bytes of the first rune of
`s`; an invalid or truncated sequence is the rune U+FFFD of width 1. -/
def decodeRuneWidth (s : GoString) : Nat :=
  match s with
  | [] => 0
  | s0 :: t =>
    match first s0 with
    | .ascii => 1
    | .invalid => 1
    | .lead sz lo hi =>
      if s.length < sz then 1
      else
        let s1 := (t.getD 0 0).toNat
        if s1 < lo ∨ hi < s1 then 1
        else if sz ≤ 2 then 2
        else if !isCont (t.getD 1 0) then 1
        else if sz ≤ 3 then 3
        else if !isCont (t.getD 2 0) then 1
        else 4

/-- The loop of `regexp.ReplaceAllString` for a pattern without empty matches: `matchAt s` is
the length in bytes of the match that starts at the head of `s`, if there is one. The first
argument counts the bytes of the current match that are still to be skipped. Where nothing
matches, the byte at the head is copied. -/
def replaceAll (matchAt : GoString → Option Nat) (repl : GoString) : Nat → GoString → GoString
  | _, [] => []
  | k + 1, _ :: t => replaceAll matchAt repl k t
  | 0, b :: t =>
    match matchAt (b :: t) with
    | some (m + 1) => repl ++ replaceAll matchAt repl m t
    | _ => b :: replaceAll matchAt repl 0 t

/-- A byte in `a-z` or `A-Z`. -/
def isLetter (b : UInt8) : Bool :=
  (0x41 ≤ b.toNat && b.toNat ≤ 0x5A) || (0x61 ≤ b.toNat && b.toNat ≤ 0x7A)

/-- The pattern `[^a-zA-Z]` at the head of `s`: one rune that is not an ASCII letter. -/
def matchNonLetter (s : GoString) : Option Nat :=
  match s with
  | [] => none
  | b :: _ => if isLetter b then none else some (decodeRuneWidth s)

/-- Number of bytes up to and including the first `>` of `s`, when no line feed comes before
it: what `.*?>` matches at the head of `s` (`.` does not match a line feed). -/
def tagRest : GoString → Option Nat
  | [] => none
  | b :: t =>
    if b = 0x3E then some 1
    else if b = 0x0A then none
    else (tagRest t).map (· + 1)

/-- The pattern `<.*?>` at the head of `s`. -/
def matchTag (s : GoString) : Option Nat :=
  match s with
  | [] => none
  | b :: t => if b = 0x3C then (tagRest t).map (· + 1) else none

/-- The call `regexp.MustCompile("<.*?>").ReplaceAllString(body, "")`. -/
def stripTags (body : GoString) : GoString := replaceAll matchTag [] 0 body

/-! ## utils.go -/

structure Settings where
  APIKey : GoString
  FreeAPI : GoString
  SourceLang : GoString
  TargetLang : GoString
  WarnCharacterLimit : Int
  MaxRequestSize : Int
  deriving DecidableEq

/-- The members of a settings JSON object that `json.Unmarshal` stores into a `Settings`. -/
structure SettingsPatch where
  api_key : Option GoString
  free_api : Option GoString
  source_lang : Option GoString
  target_lang : Option GoString
  warn_character_limit : Option Int
  max_request_size : Option Int

/-- The members of a usage JSON object that the decoder stores into a `UsageResponse`. -/
structure UsageJSON where
  character_count : Option Int
  character_limit : Option Int

structure UsageResponse where
  CharacterCount : Int
  CharacterLimit : Int
  deriving DecidableEq

/-- The fields of `*http.Response` the program reads; `Body` is what `ioutil.ReadAll` gives. -/
structure Response where
  StatusCode : Int
  Body : GoString
  deriving DecidableEq

/-- A `url.Values` with one value per key. -/
abbrev Values := List (GoString × GoString)

/-- The method `url.Values.Set`. -/
def Values.set (data : Values) (key value : GoString) : Values :=
  data.filter (fun kv => kv.1 ≠ key) ++ [(key, value)]

def Version : String := "1.1.0"
def FreeAPIURL : GoString := goStr "https://api-free.deepl.com/v2/"
def PaidAPIURL : GoString := goStr "https://api.deepl.com/v2/"
def DefaultWarnCharacterLimit : Int := 50000
def DefaultMaxRequestSize : Int := 8192
def DefaultFreeAPI : GoString := goStr "yes"

/-- The format `ErrCreatingAPIRequest` applied to an error. -/
def ErrCreatingAPIRequest (e : GoString) : GoString := goStr "error creating API request: " ++ e

/-- The format `ErrMakingAPIRequest` applied to an error. -/
def ErrMakingAPIRequest (e : GoString) : GoString := goStr "error making API request: " ++ e

/-- The format `ErrDecodingAPIResponse` applied to an error. -/
def ErrDecodingAPIResponse (e : GoString) : GoString := goStr "error decoding API response: " ++ e

/-- The format `APIErrorMsg` applied to the cleaned body, the status code and the body. -/
def APIErrorMsg (cleanedBody : GoString) (status : Int) (body : GoString) : GoString :=
  goStr "API error: " ++ cleanedBody ++ goStr "\nStatus Code: " ++ itoa status ++
    goStr "\nResponse Body: " ++ body ++ goStr "\nPlease make sure your API key is working."

/-- What the program does that can be observed from outside, in the order it happens. -/
inductive Event where
  /-- A message written by `fmt.Print`, `fmt.Printf` or `fmt.Println`. -/
  | stdout (text : GoString)
  /-- The statement `fmt.Println(translatedText)`. -/
  | printTranslated (text : GoString)
  /-- The call `flag.Usage()`. -/
  | flagUsage
  | quota (apiKey freeAPI : GoString) (result : Ret Int)
  | translate (apiKey sourceLang targetLang freeAPI chunk : GoString) (result : Ret GoString)
  | writeFile (name data : GoString) (err : Option GoString)
  deriving DecidableEq

/-- The world around the program. The remote service and the file system may answer
differently as the run goes on: they see the events so far. -/
structure Env where
  /-- Error of `http.NewRequest("POST", url, body)`, if any. -/
  newRequest : GoString → Values → Option GoString
  /-- The call `client.Do(req)`. -/
  clientDo : List Event → GoString → Values → Except GoString Response
  /-- Decoding of a usage body by `encoding/json`. -/
  decodeUsage : GoString → Except GoString UsageJSON
  /-- Decoding of a translate body by `encoding/json`: the `translations` member, if present,
  and the `text` member of each of its elements, if present. -/
  decodeDeepL : GoString → Except GoString (Option (List (Option GoString)))
  /-- The call `ioutil.ReadFile`. -/
  readFile : GoString → Except GoString GoString
  /-- The call `ioutil.WriteFile(name, data, 0644)`: its error, if any. -/
  writeFile : List Event → GoString → GoString → Option GoString
  /-- The call `mime.TypeByExtension`. -/
  typeByExtension : GoString → GoString
  /-- The text of `flag.Lookup("free_api").Value.String()`. -/
  flagFreeAPI : GoString
  /-- What `json.Unmarshal` finds in the bytes of the settings file. -/
  unmarshalSettings : GoString → SettingsPatch

/-- Function `makeAPIRequest` of utils.go. -/
def makeAPIRequest (env : Env) (hist : List Event) (apiURL apiKey : GoString) (data : Values) :
    Except GoString Response :=
  let data := data.set (goStr "auth_key") apiKey
  match env.newRequest apiURL data with
  | some err => .error (ErrCreatingAPIRequest err)
  | none =>
    match env.clientDo hist apiURL data with
    | .error err => .error (ErrMakingAPIRequest err)
    | .ok resp => .ok resp

/-- Function `getAPIURL` of utils.go. -/
def getAPIURL (endpoint freeAPI : GoString) : GoString :=
  if freeAPI = DefaultFreeAPI then FreeAPIURL ++ endpoint
  else PaidAPIURL ++ endpoint

/-- Function `getRemainingCharacterLimit` of utils.go. -/
def getRemainingCharacterLimit (env : Env) (hist : List Event) (apiKey freeAPI : GoString) :
    Ret Int :=
  let apiURL := getAPIURL (goStr "usage") freeAPI
  match makeAPIRequest env hist apiURL apiKey [] with
  | .error err => .ret 0 (some err)
  | .ok resp =>
    if resp.StatusCode ≠ 200 then
      let body := resp.Body
      let cleanedBody := stripTags body
      .ret 0 (some (APIErrorMsg cleanedBody resp.StatusCode body))
    else
      match env.decodeUsage resp.Body with
      | .error err => .ret 0 (some (ErrDecodingAPIResponse err))
      | .ok js =>
        let usageResp : UsageResponse :=
          { CharacterCount := js.character_count.getD 0
            CharacterLimit := js.character_limit.getD 0 }
        .ret (wrap64 (usageResp.CharacterLimit - usageResp.CharacterCount)) none

/-- Function `translateChunk` of utils.go. -/
def translateChunk (env : Env) (hist : List Event)
    (apiKey sourceLang targetLang freeAPI chunk : GoString) : Ret GoString :=
  let apiURL := getAPIURL (goStr "translate") freeAPI
  let data : Values :=
    [(goStr "text", chunk), (goStr "source_lang", sourceLang), (goStr "target_lang", targetLang)]
  match makeAPIRequest env hist apiURL apiKey data with
  | .error err => .ret [] (some err)
  | .ok resp =>
    if resp.StatusCode ≠ 200 then
      let body := resp.Body
      let cleanedBody := stripTags body
      .ret [] (some (APIErrorMsg cleanedBody resp.StatusCode body))
    else
      match env.decodeDeepL resp.Body with
      | .error err => .ret [] (some (ErrDecodingAPIResponse err))
      | .ok js =>
        let translations : List GoString := (js.getD []).map (fun t => t.getD [])
        match translations with
        | [] => .panic (goStr "index out of range [0] with length 0")
        | t :: _ => .ret t none

/-- Function `sanitizeFilename` of utils.go. -/
def sanitizeFilename (input : GoString) : GoString :=
  let sanitized := replaceAll matchNonLetter (goStr "_") 0 input
  let sanitized := if len sanitized > 15 then (slice sanitized 0 15).getD [] else sanitized
  sanitized ++ goStr ".txt"

/-! ## cli.go -/

/-- The parameters of `translateCLI`. -/
structure Args where
  inputFile : GoString
  inputString : GoString
  apiKey : GoString
  freeAPI : GoString
  sourceLang : GoString
  targetLang : GoString
  outputFile : GoString
  output : GoString

/-- How a call ends. -/
inductive Exit where
  | returned
  | panicked (msg : GoString)
  deriving DecidableEq

/-- A run of the program: what it did and how it ended. -/
structure Run where
  trace : List Event
  exit : Exit
  deriving DecidableEq

/-- The call `strings.Contains(s, sub)`. -/
def stringsContains (s sub : GoString) : Bool := s.tails.any (fun t => sub.isPrefixOf t)

/-- The loop of `filepath.Ext`, from the last byte of the path backwards. -/
def extScan : GoString → GoString → GoString
  | [], _ => []
  | c :: t, acc =>
    if c = 0x2F then []
    else if c = 0x2E then c :: acc
    else extScan t (c :: acc)

/-- The call `filepath.Ext(path)`. -/
def filepathExt (path : GoString) : GoString := extScan path.reverse []

/-- The call `json.Unmarshal(settingsData, &settings)`. -/
def Settings.unmarshal (settings : Settings) (js : SettingsPatch) : Settings :=
  { APIKey := js.api_key.getD settings.APIKey
    FreeAPI := js.free_api.getD settings.FreeAPI
    SourceLang := js.source_lang.getD settings.SourceLang
    TargetLang := js.target_lang.getD settings.TargetLang
    WarnCharacterLimit := js.warn_character_limit.getD settings.WarnCharacterLimit
    MaxRequestSize := js.max_request_size.getD settings.MaxRequestSize }

/-- The local variables of `translateCLI` once the input has been read (line 99). -/
structure Prepared where
  settings : Settings
  apiKey : GoString
  freeAPI : GoString
  sourceLang : GoString
  targetLang : GoString
  inputData : GoString
  deriving DecidableEq

/-- Lines 30 to 98 of `translateCLI`: validation, settings and flags, reading of the input.
The result is the trace of a run that returns early, or the local variables. -/
def prepare (env : Env) (a : Args) : Except (List Event) Prepared :=
  if a.inputString = [] ∧ a.inputFile = [] then
    .error [.stdout (goStr "Either input_file or input_string must be provided\n"), .flagUsage]
  else if a.inputFile ≠ [] ∧
      !stringsContains (env.typeByExtension (filepathExt a.inputFile)) (goStr "text") then
    .error [.stdout (goStr "Input file must be a text file\n")]
  else
    let settings : Settings :=
      { APIKey := [], FreeAPI := [], SourceLang := [], TargetLang := []
        WarnCharacterLimit := DefaultWarnCharacterLimit
        MaxRequestSize := DefaultMaxRequestSize }
    let settings :=
      match env.readFile (goStr "settings.json") with
      | .ok settingsData => settings.unmarshal (env.unmarshalSettings settingsData)
      | .error _ => settings
    let apiKey := if a.apiKey = [] then settings.APIKey else a.apiKey
    let freeAPIValue := env.flagFreeAPI
    let freeAPI :=
      if freeAPIValue = [] then
        if settings.FreeAPI = [] then DefaultFreeAPI else settings.FreeAPI
      else freeAPIValue
    let sourceLang := if a.sourceLang = [] then settings.SourceLang else a.sourceLang
    let targetLang := if a.targetLang = [] then settings.TargetLang else a.targetLang
    if apiKey = [] then
      .error [.stdout (goStr "API key is required\n"), .flagUsage]
    else if sourceLang = [] ∨ targetLang = [] then
      .error [.stdout (goStr "source_lang and target_lang parameters are required\n"),
        .flagUsage]
    else if a.inputString ≠ [] then
      .ok ⟨settings, apiKey, freeAPI, sourceLang, targetLang, a.inputString⟩
    else
      match env.readFile a.inputFile with
      | .error err =>
        .error [.stdout (goStr "Error reading input file: " ++ err ++ goStr "\n")]
      | .ok inputData => .ok ⟨settings, apiKey, freeAPI, sourceLang, targetLang, inputData⟩

/-- How the translation step (lines 111 to 137) ends: with the text of the builder, with an
early return, or with a panic. -/
inductive LoopOut where
  | done (trace : List Event) (text : GoString)
  | abort (trace : List Event)
  | panic (trace : List Event) (msg : GoString)
  deriving DecidableEq

/-- The events of a translation step. -/
def LoopOut.trace : LoopOut → List Event
  | .done tr _ => tr
  | .abort tr => tr
  | .panic tr _ => tr

/-- The bounds `start` and `end` of the slice of iteration `i` (lines 122 to 126). -/
def chunkBounds (p : Prepared) (i : Int) : Int × Int :=
  let start := wrap64 (i * p.settings.MaxRequestSize)
  let end_ := wrap64 (start + p.settings.MaxRequestSize)
  let end_ := if end_ > len p.inputData then len p.inputData else end_
  (start, end_)

/-- The `for` loop of lines 121 to 135; the first argument is the number of iterations left,
`totalChunks - i`. -/
def chunkLoop (env : Env) (p : Prepared) : Nat → Int → List Event → GoString → LoopOut
  | 0, _, tr, builder => .done tr builder
  | n + 1, i, tr, builder =>
    match slice p.inputData (chunkBounds p i).1 (chunkBounds p i).2 with
    | none => .panic tr (goStr "slice bounds out of range")
    | some chunk =>
      let r := translateChunk env tr p.apiKey p.sourceLang p.targetLang p.freeAPI chunk
      let tr := tr ++ [Event.translate p.apiKey p.sourceLang p.targetLang p.freeAPI chunk r]
      match r with
      | .panic msg => .panic tr msg
      | .ret _ (some err) =>
        .abort (tr ++ [.stdout (goStr "Error translating chunk: " ++ err ++ goStr "\n")])
      | .ret translatedChunk none =>
        chunkLoop env p n (wrap64 (i + 1)) (tr ++ [.stdout (goStr ".")])
          (builder ++ translatedChunk)

/-- The value of `totalChunks` (line 120), for a divisor that is not zero. -/
def totalChunks (p : Prepared) : Int :=
  wrap64 ((wrap64 (wrap64 (len p.inputData + p.settings.MaxRequestSize) - 1)).tdiv
    p.settings.MaxRequestSize)

/-- Lines 111 to 137 of `translateCLI`: one request, or the loop over the chunks. -/
def translateData (env : Env) (p : Prepared) (tr : List Event) : LoopOut :=
  if len p.inputData ≤ p.settings.MaxRequestSize then
    let r := translateChunk env tr p.apiKey p.sourceLang p.targetLang p.freeAPI p.inputData
    let tr := tr ++ [Event.translate p.apiKey p.sourceLang p.targetLang p.freeAPI p.inputData r]
    match r with
    | .panic msg => .panic tr msg
    | .ret _ (some err) =>
      .abort (tr ++ [.stdout (goStr "Error translating text: " ++ err ++ goStr "\n")])
    | .ret translatedChunk none => .done tr translatedChunk
  else if p.settings.MaxRequestSize = 0 then
    .panic tr (goStr "integer divide by zero")
  else
    match chunkLoop env p (totalChunks p).toNat 0 tr [] with
    | .done tr text => .done (tr ++ [.stdout (goStr "\n")]) text
    | out => out

/-- The name of the output file (lines 145 to 152); `none` when a slice is out of range. -/
def outputFileName (a : Args) : Option GoString :=
  if a.outputFile = [] then
    if a.inputString ≠ [] then some (sanitizeFilename a.inputString)
    else
      let ext := filepathExt a.inputFile
      (slice a.inputFile 0 (len a.inputFile - len ext)).map
        (fun stem => stem ++ goStr ".translated" ++ ext)
  else some a.outputFile

/-- Lines 162 to 167 of `translateCLI`: the quota after the translation. -/
def reportRemaining (env : Env) (p : Prepared) (tr : List Event) : Run :=
  let r := getRemainingCharacterLimit env tr p.apiKey p.freeAPI
  let tr := tr ++ [Event.quota p.apiKey p.freeAPI r]
  match r with
  | .panic msg => ⟨tr, .panicked msg⟩
  | .ret _ (some err) =>
    ⟨tr ++ [.stdout (goStr "Error getting remaining character limit: " ++ err ++ goStr "\n")],
      .returned⟩
  | .ret remainingCharacters none =>
    ⟨tr ++ [.stdout (goStr "Remaining character limit: " ++ itoa remainingCharacters ++
      goStr "\n")], .returned⟩

/-- Lines 139 to 168 of `translateCLI`: the translated text goes to the screen or to a file. -/
def writeOutput (env : Env) (a : Args) (p : Prepared) (tr : List Event)
    (translatedText : GoString) : Run :=
  if a.output = goStr "screen" then
    reportRemaining env p
      (tr ++ [.stdout (goStr "Translated Text:\n"), .printTranslated translatedText])
  else
    match outputFileName a with
    | none => ⟨tr, .panicked (goStr "slice bounds out of range")⟩
    | some outputFile =>
      let err := env.writeFile tr outputFile translatedText
      let tr := tr ++ [Event.writeFile outputFile translatedText err]
      match err with
      | some err =>
        ⟨tr ++ [.stdout (goStr "Error writing output file: " ++ err ++ goStr "\n")], .returned⟩
      | none => reportRemaining env p (tr ++ [.stdout (goStr "Translation successful!\n")])

/-- Lines 100 to 168 of `translateCLI`: quota check, translation, output. -/
def translatePrepared (env : Env) (a : Args) (p : Prepared) : Run :=
  let r := getRemainingCharacterLimit env [] p.apiKey p.freeAPI
  let tr := [Event.quota p.apiKey p.freeAPI r]
  match r with
  | .panic msg => ⟨tr, .panicked msg⟩
  | .ret _ (some err) =>
    ⟨tr ++ [.stdout (goStr "Error getting remaining character limit: " ++ err ++ goStr "\n")],
      .returned⟩
  | .ret remainingCharacters none =>
    if len p.inputData > remainingCharacters then
      ⟨tr ++ [.stdout (goStr "Input data exceeds the remaining character limit of " ++
        itoa remainingCharacters ++ goStr " characters\n")], .returned⟩
    else
      match translateData env p tr with
      | .abort tr => ⟨tr, .returned⟩
      | .panic tr msg => ⟨tr, .panicked msg⟩
      | .done tr translatedText => writeOutput env a p tr translatedText

/-- Function `translateCLI` of cli.go. -/
def translateCLI (env : Env) (a : Args) : Run :=
  match prepare env a with
  | .error tr => ⟨tr, .returned⟩
  | .ok p => translatePrepared env a p

/-! ## translator.go -/

namespace TranslatorGo

/-- Function `sanitizeFilename` of translator.go. -/
def sanitizeFilename (input : GoString) : GoString :=
  let sanitized := replaceAll matchNonLetter (goStr "_") 0 input
  let sanitized := if len sanitized > 15 then (slice sanitized 0 15).getD [] else sanitized
  sanitized ++ goStr ".txt"

/-- Function `getAPIURL` of translator.go. -/
def getAPIURL (endpoint freeAPI : GoString) : GoString :=
  if freeAPI = goStr "yes" then goStr "https://api-free.deepl.com/v2/" ++ endpoint
  else goStr "https://api.deepl.com/v2/" ++ endpoint

end TranslatorGo

/-! ## main.go -/

/-- The flags of a command line that `flag.Parse` accepts: the value given for each flag,
`none` for a flag that is not on the command line. -/
structure CommandLine where
  gui : Option Bool
  input_file : Option GoString
  input_string : Option GoString
  api_key : Option GoString
  free_api : Option GoString
  source_lang : Option GoString
  target_lang : Option GoString
  output_file : Option GoString
  output : Option GoString

/-- What `main` does: it starts the window of `translateGUI`, or it runs `translateCLI`. -/
inductive MainOut where
  | gui
  | cli (run : Run)
  deriving DecidableEq

/-- Function `main` of main.go. Each flag holds the value given on the command line or the
default of its declaration; `flag.Lookup("free_api").Value.String()` is the text of the
`free_api` flag. -/
def main (env : Env) (cmd : CommandLine) : MainOut :=
  let runGUI := cmd.gui.getD false
  let inputFile := cmd.input_file.getD (goStr "")
  let inputString := cmd.input_string.getD (goStr "")
  let apiKey := cmd.api_key.getD (goStr "")
  let freeAPI := cmd.free_api.getD (goStr "yes")
  let sourceLang := cmd.source_lang.getD (goStr "")
  let targetLang := cmd.target_lang.getD (goStr "")
  let outputFile := cmd.output_file.getD (goStr "")
  let output := cmd.output.getD (goStr "file")
  if runGUI then .gui
  else
    .cli (translateCLI { env with flagFreeAPI := freeAPI }
      ⟨inputFile, inputString, apiKey, freeAPI, sourceLang, targetLang, outputFile, output⟩)

/-- Lines 44 to 52 of `translateCLI`: the defaults, overwritten by the settings file. -/
def loadedSettings (env : Env) : Settings :=
  let settings : Settings :=
    { APIKey := [], FreeAPI := [], SourceLang := [], TargetLang := []
      WarnCharacterLimit := DefaultWarnCharacterLimit
      MaxRequestSize := DefaultMaxRequestSize }
  match env.readFile (goStr "settings.json") with
  | .ok settingsData => settings.unmarshal (env.unmarshalSettings settingsData)
  | .error _ => settings

/-- Lines 154 and 189 to 200 of `main` of translator.go: the `free_api` flag is declared with
the default `""`; when its text is empty the value of the settings is used, and "yes" when
the settings have none. -/
def TranslatorGo.mainFreeAPI (free_api : Option GoString) (settings : Settings) : GoString :=
  let freeAPIValue := free_api.getD (goStr "")
  if freeAPIValue = [] then
    if settings.FreeAPI = [] then goStr "yes" else settings.FreeAPI
  else freeAPIValue

/-! ## gui.go -/

/-- A dialog that the window shows. -/
inductive Dialog where
  | error (msg : GoString)
  | confirm (title msg : GoString)
  deriving DecidableEq

/-- The window of `translateGUI`, as far as the translate button touches it: the texts of
three widgets, the dialogs shown and the remote calls made so far, in order. -/
structure Window where
  inputTextArea : GoString
  outputTextArea : GoString
  remainingCharactersLabel : GoString
  dialogs : List Dialog
  calls : List Event
  deriving DecidableEq

/-- How a callback of the window ends. -/
structure GuiRun where
  window : Window
  exit : Exit
  deriving DecidableEq

/-- Function `proceedWithTranslation` of gui.go. -/
def proceedWithTranslation (env : Env) (inputText : GoString) (settings : Settings)
    (w : Window) : GuiRun :=
  let r := translateChunk env w.calls settings.APIKey settings.SourceLang settings.TargetLang
    settings.FreeAPI inputText
  let call := Event.translate settings.APIKey settings.SourceLang settings.TargetLang
    settings.FreeAPI inputText r
  let w := { w with calls := w.calls ++ [call] }
  match r with
  | .panic msg => ⟨w, .panicked msg⟩
  | .ret _ (some err) => ⟨{ w with dialogs := w.dialogs ++ [.error err] }, .returned⟩
  | .ret translatedText none => ⟨{ w with outputTextArea := translatedText }, .returned⟩

/-- The closure `updateRemainingCharacters` of `translateGUI` (lines 61 to 68). -/
def updateRemainingCharacters (env : Env) (settings : Settings) (w : Window) : GuiRun :=
  let r := getRemainingCharacterLimit env w.calls settings.APIKey settings.FreeAPI
  let w := { w with calls := w.calls ++ [Event.quota settings.APIKey settings.FreeAPI r] }
  match r with
  | .panic msg => ⟨w, .panicked msg⟩
  | .ret _ (some err) => ⟨{ w with dialogs := w.dialogs ++ [.error err] }, .returned⟩
  | .ret remainingCharacters none =>
    let text := goStr "Remaining Characters: " ++ itoa remainingCharacters
    ⟨{ w with remainingCharactersLabel := text }, .returned⟩

/-- The two statements `proceedWithTranslation(...)` and `updateRemainingCharacters()` of the
translate button (lines 75 and 76, and 80 and 81). -/
def translateAndUpdate (env : Env) (settings : Settings) (w : Window) : GuiRun :=
  match proceedWithTranslation env w.inputTextArea settings w with
  | ⟨w, .panicked msg⟩ => ⟨w, .panicked msg⟩
  | ⟨w, .returned⟩ => updateRemainingCharacters env settings w

/-- The callback of the translate button (lines 70 to 83); `confirmed` is the answer of the
user to the warning, when it is shown. -/
def translateButton (env : Env) (settings : Settings) (confirmed : Bool) (w : Window) :
    GuiRun :=
  if len w.inputTextArea > settings.WarnCharacterLimit then
    let msg := goStr "Your translated text exceeds the character limit of " ++
      itoa settings.WarnCharacterLimit ++ goStr ", do you want to continue?"
    let w := { w with dialogs := w.dialogs ++ [.confirm (goStr "Warning") msg] }
    if confirmed then translateAndUpdate env settings w
    else ⟨w, .returned⟩
  else translateAndUpdate env settings w

/-! ## Observations on a trace -/

/-- The `translateChunk` calls of a trace: the chunk sent and the result, in call order. -/
def translateCalls : List Event → List (GoString × Ret GoString)
  | [] => []
  | .translate _ _ _ _ chunk r :: rest => (chunk, r) :: translateCalls rest
  | _ :: rest => translateCalls rest

/-- The translated texts a trace puts out: printed to the screen or handed to
`ioutil.WriteFile`. -/
def outputs : List Event → List GoString
  | [] => []
  | .printTranslated text :: rest => text :: outputs rest
  | .writeFile _ data _ :: rest => data :: outputs rest
  | _ :: rest => outputs rest

/-- The text a successful `translateChunk` call returned (`""` for the others). -/
def resultText : Ret GoString → GoString
  | .ret text none => text
  | _ => []

/-- A `translateChunk` call that returned a text and a `nil` error. -/
def Ret.succeeded : Ret GoString → Bool
  | .ret _ none => true
  | _ => false

/-- The events that follow the first `translateChunk` call of a trace that returned an error;
`none` when no call returned an error. -/
def afterFailure : List Event → Option (List Event)
  | [] => none
  | .translate _ _ _ _ _ (.ret _ (some _)) :: rest => some rest
  | _ :: rest => afterFailure rest

/-- The event of a `translateChunk` call of `translateCLI`. -/
def translateEvent (p : Prepared) (chunk : GoString) (r : Ret GoString) : Event :=
  .translate p.apiKey p.sourceLang p.targetLang p.freeAPI chunk r

/-- The events of the iterations of the loop that sent the chunks `cs.map Prod.fst` and got
the texts `cs.map Prod.snd` back. -/
def okEvents (p : Prepared) : List (GoString × GoString) → List Event
  | [] => []
  | ct :: cs => translateEvent p ct.1 (.ret ct.2 none) :: .stdout (goStr ".") :: okEvents p cs

/-- The slices `inputData[start:end]` that `n` iterations of the loop cut, from iteration `i`
on (lines 122 to 127); `none` stands for a slice that is out of range. -/
def loopChunks (p : Prepared) : Nat → Int → List (Option GoString)
  | 0, _ => []
  | n + 1, i =>
    slice p.inputData (chunkBounds p i).1 (chunkBounds p i).2 :: loopChunks p n (wrap64 (i + 1))

/-- The remote calls of a trace, quota and translate, in call order. -/
def remoteCalls : List Event → List Event
  | [] => []
  | .quota k f r :: rest => .quota k f r :: remoteCalls rest
  | .translate k s t f c r :: rest => .translate k s t f c r :: remoteCalls rest
  | _ :: rest => remoteCalls rest

/-- The free/paid flag that each remote call of a trace was made with, in call order. -/
def remoteFreeAPI : List Event → List GoString
  | [] => []
  | .quota _ f _ :: rest => f :: remoteFreeAPI rest
  | .translate _ _ _ f _ _ :: rest => f :: remoteFreeAPI rest
  | _ :: rest => remoteFreeAPI rest

/-! ## Definitions that follow the words of the specification -/

/-- The characters of a Go string, as `range` over the string gives them: each is the byte
sequence of one rune, an invalid byte being a character of its own. -/
def runes (s : GoString) : List GoString :=
  if s = [] then []
  else s.take (decodeRuneWidth s) :: runes (s.drop (decodeRuneWidth s))
termination_by s.length
decreasing_by
  rename_i hs
  have hpos : 1 ≤ decodeRuneWidth s := by
    cases s with
    | nil => exact absurd rfl hs
    | cons b t =>
      simp only [decodeRuneWidth]
      repeat (first | omega | split)
  have hlen : 0 < s.length := List.length_pos.mpr hs
  simp only [List.length_drop]
  omega

/-- The replacement of one character in the words of the specification: a letter of `a-z` or
`A-Z` is kept, every other character becomes one underscore. -/
def replaceRune (r : GoString) : UInt8 :=
  match r with
  | [b] => if isLetter b then b else 0x5F
  | _ => 0x5F

/-- The file name in the words of the specification: every non-alphabetic character replaced
by an underscore, truncated to 15 characters, with ".txt" appended. -/
def sanitizeFilenameSpec (s : GoString) : GoString :=
  ((runes s).map replaceRune).take 15 ++ goStr ".txt"

/-- What `.*?>` would match at the head of `s` if `.` matched line feeds too. -/
def tagRestAnyLine : GoString → Option Nat
  | [] => none
  | b :: t => if b = 0x3E then some 1 else (tagRestAnyLine t).map (· + 1)

/-- A tag `<...>` at the head of `s`, whether or not it spans several lines. -/
def matchTagAnyLine (s : GoString) : Option Nat :=
  match s with
  | [] => none
  | b :: t => if b = 0x3C then (tagRestAnyLine t).map (· + 1) else none

/-- The body with every tag `<...>` removed, tags that span several lines included. -/
def stripAllTags (body : GoString) : GoString := replaceAll matchTagAnyLine [] 0 body

/-- The chunk number `j` in the words of the specification: the bytes of the input from
`j * m` up to `(j + 1) * m`, or up to the end of the input when that comes first. -/
def chunkAt (data : GoString) (m j : Nat) : GoString := (data.drop (j * m)).take m

/-! ## A sample environment -/

/-- A service that answers a usage request with status 200, and a translate request with the
text it was sent, except the request after `failAt` translate calls, which it answers with
status 503 and an HTML body. The settings file holds a key, the two languages and
`maxRequestSize`; the usage body decodes to `usage`. -/
def sampleEnv (maxRequestSize : Option Int) (failAt : Nat) (usage : UsageJSON) : Env where
  newRequest := fun _ _ => none
  clientDo := fun hist _ data =>
    match data.lookup (goStr "text") with
    | none => .ok ⟨200, []⟩
    | some text =>
      if (translateCalls hist).length = failAt then .ok ⟨503, goStr "<h1>busy</h1>"⟩
      else .ok ⟨200, text⟩
  decodeUsage := fun _ => .ok usage
  decodeDeepL := fun body => .ok (some [some body])
  readFile := fun name =>
    if name = goStr "settings.json" then .ok [] else .error (goStr "no such file")
  writeFile := fun _ _ _ => none
  typeByExtension := fun _ => goStr "text/plain"
  flagFreeAPI := goStr "yes"
  unmarshalSettings := fun _ =>
    ⟨some (goStr "key"), none, some (goStr "EN"), some (goStr "DE"), none, maxRequestSize⟩

/-- A service that answers every request with the given status and body. -/
def constEnv (status : Int) (body : GoString) : Env :=
  { sampleEnv none 0 ⟨none, none⟩ with clientDo := fun _ _ _ => .ok ⟨status, body⟩ }

/-- The arguments of a run that translates `text` and writes to `output`. -/
def sampleArgs (text output : GoString) : Args :=
  ⟨[], text, [], goStr "yes", [], [], [], output⟩

/-- The settings that `sampleEnv` loads. -/
def sampleSettings (maxRequestSize : Int) : Settings :=
  ⟨goStr "key", [], goStr "EN", goStr "DE", 50000, maxRequestSize⟩

/-- The local variables of a run in `sampleEnv` on `sampleArgs text output`. -/
def samplePrepared (maxRequestSize : Int) (text : GoString) : Prepared :=
  ⟨sampleSettings maxRequestSize, goStr "key", goStr "yes", goStr "EN", goStr "DE", text⟩

/-- The sample environment with a settings file whose `free_api` member is "no". -/
def paidSettingsEnv : Env :=
  { sampleEnv none 99 ⟨some 10, some 500000⟩ with
    unmarshalSettings := fun _ =>
      ⟨some (goStr "key"), some (goStr "no"), some (goStr "EN"), some (goStr "DE"), none,
        none⟩ }

/-- The sample environment without a settings file. -/
def bareEnv : Env :=
  { sampleEnv none 99 ⟨some 10, some 500000⟩ with
    readFile := fun _ => .error (goStr "no such file") }

/-- A command line with `-input_string text -output screen` and no other flag. -/
def sampleCommandLine (text : GoString) : CommandLine :=
  ⟨none, none, some text, none, none, none, none, none, some (goStr "screen")⟩

/-- A window with the given input text and nothing else. -/
def sampleWindow (text : GoString) : Window := ⟨text, [], [], [], []⟩

/-! ## Theorems -/

/-! ### Endpoint selection -/

theorem FreeAPIURL_eq :
    FreeAPIURL =
      [104, 116, 116, 112, 115, 58, 47, 47, 97, 112, 105, 45] ++ goStr "free.deepl.com/v2/" := by
  decide

theorem PaidAPIURL_eq :
    PaidAPIURL =
      [104, 116, 116, 112, 115, 58, 47, 47, 97, 112, 105, 46] ++ goStr "deepl.com/v2/" := by
  decide

theorem paid_not_free (e : GoString) : ¬ FreeAPIURL <+: PaidAPIURL ++ e := by
  rintro ⟨t, ht⟩
  rw [FreeAPIURL_eq, PaidAPIURL_eq] at ht
  simp only [List.cons_append, List.cons.injEq, List.nil_append] at ht
  have h12 := ht.2.2.2.2.2.2.2.2.2.2.2.1
  revert h12
  decide

/-- Claim C5: `getAPIURL` (in utils.go and in translator.go) is the free base URL followed by
the endpoint when the flag is exactly "yes" and the paid base URL followed by the endpoint
otherwise; the result starts with the free base URL exactly when the flag is "yes", and
"Yes", "no" and the empty string select the paid base URL. -/
theorem getAPIURL_spec (e f : GoString) :
    getAPIURL e f =
        (if f = goStr "yes" then goStr "https://api-free.deepl.com/v2/" ++ e
         else goStr "https://api.deepl.com/v2/" ++ e) ∧
      TranslatorGo.getAPIURL e f = getAPIURL e f ∧
      (goStr "https://api-free.deepl.com/v2/" <+: getAPIURL e f ↔ f = goStr "yes") ∧
      getAPIURL e (goStr "Yes") = goStr "https://api.deepl.com/v2/" ++ e ∧
      getAPIURL e (goStr "no") = goStr "https://api.deepl.com/v2/" ++ e ∧
      getAPIURL e (goStr "") = goStr "https://api.deepl.com/v2/" ++ e := by
  refine ⟨rfl, rfl, ?_, ?_, ?_, ?_⟩
  · unfold getAPIURL
    split
    · rename_i h
      exact ⟨fun _ => h, fun _ => List.prefix_append _ _⟩
    · rename_i h
      exact ⟨fun hp => absurd hp (paid_not_free e), fun hf => absurd hf h⟩
  · unfold getAPIURL
    rw [if_neg (by decide)]; rfl
  · unfold getAPIURL
    rw [if_neg (by decide)]; rfl
  · unfold getAPIURL
    rw [if_neg (by decide)]; rfl


/-! ### File name derivation -/

theorem decodeRuneWidth_pos (b : UInt8) (t : GoString) : 1 ≤ decodeRuneWidth (b :: t) := by
  simp only [decodeRuneWidth]
  repeat (first | omega | split)

theorem goStr_underscore : goStr "_" = [0x5F] := by decide

theorem replaceAll_skip (m : GoString → Option Nat) (r : GoString) (k : Nat) (t : GoString) :
    replaceAll m r k t = replaceAll m r 0 (t.drop k) := by
  induction t generalizing k with
  | nil => simp [replaceAll]
  | cons b t ih =>
    cases k with
    | zero => simp
    | succ k => simp only [replaceAll, List.drop_succ_cons]; exact ih k

theorem isLetter_width (b : UInt8) (t : GoString) (h : isLetter b = true) :
    decodeRuneWidth (b :: t) = 1 := by
  have hlt : b.toNat < 0x80 := by
    simp only [isLetter, Bool.or_eq_true, Bool.and_eq_true, decide_eq_true_eq] at h
    omega
  simp only [decodeRuneWidth, first, hlt, if_true]

theorem runes_cons (b : UInt8) (t : GoString) :
    runes (b :: t) =
      (b :: t.take (decodeRuneWidth (b :: t) - 1)) ::
        runes (t.drop (decodeRuneWidth (b :: t) - 1)) := by
  have hpos := decodeRuneWidth_pos b t
  obtain ⟨w, hw⟩ : ∃ w, decodeRuneWidth (b :: t) = w + 1 := ⟨decodeRuneWidth (b :: t) - 1, by omega⟩
  rw [runes, if_neg (List.cons_ne_nil b t), hw]
  simp

theorem replaceRune_nonLetter (b : UInt8) (r : GoString) (h : isLetter b = false) :
    replaceRune (b :: r) = 0x5F := by
  cases r with
  | nil => simp [replaceRune, h]
  | cons c r => simp [replaceRune]

theorem replaceAll_eq_runes (n : Nat) : ∀ s : GoString, s.length ≤ n →
    replaceAll matchNonLetter (goStr "_") 0 s = (runes s).map replaceRune := by
  induction n with
  | zero =>
    intro s hs
    have : s = [] := List.length_eq_zero.mp (Nat.le_zero.mp hs)
    subst this
    rw [runes]; simp [replaceAll]
  | succ n ih =>
    intro s hs
    cases s with
    | nil => rw [runes]; simp [replaceAll]
    | cons b t =>
      have hpos := decodeRuneWidth_pos b t
      rw [runes_cons, List.map_cons]
      cases hb : isLetter b with
      | true =>
        have hw := isLetter_width b t hb
        have ht : t.length ≤ n := by simpa using hs
        simp only [replaceAll, matchNonLetter, hb, if_true, hw, Nat.sub_self, List.take_zero,
          List.drop_zero, replaceRune]
        rw [ih t ht]
      | false =>
        obtain ⟨w, hw⟩ : ∃ w, decodeRuneWidth (b :: t) = w + 1 :=
          ⟨decodeRuneWidth (b :: t) - 1, by omega⟩
        have ht : (t.drop w).length ≤ n := by
          simp only [List.length_drop]
          have : t.length ≤ n := by simpa using hs
          omega
        simp only [replaceAll, matchNonLetter, hb, hw, Nat.add_sub_cancel, Bool.false_eq_true,
          if_false, replaceRune_nonLetter b _ hb]
        rw [replaceAll_skip, ih _ ht, goStr_underscore]
        rfl

theorem sanitizeFilename_eq_take (s : GoString) :
    sanitizeFilename s =
      (replaceAll matchNonLetter (goStr "_") 0 s).take 15 ++ goStr ".txt" := by
  unfold sanitizeFilename
  simp only
  split
  · rename_i h
    have h15 : (15 : Int) ≤ len (replaceAll matchNonLetter (goStr "_") 0 s) := le_of_lt h
    simp [slice, h15]
  · rename_i h
    have hle : (replaceAll matchNonLetter (goStr "_") 0 s).length ≤ 15 := by
      simp only [len, gt_iff_lt, not_lt] at h
      omega
    rw [List.take_of_length_le hle]

theorem replaceRune_shape (r : GoString) : isLetter (replaceRune r) = true ∨ replaceRune r = 0x5F := by
  unfold replaceRune
  split
  · split
    · rename_i h; exact Or.inl h
    · exact Or.inr rfl
  · exact Or.inr rfl

/-- Claim C6: for every input string, `sanitizeFilename` gives a name that ends in ".txt",
whose part before the extension holds only letters of `a-z`, `A-Z` and underscores and has
length at most 15. -/
theorem sanitizeFilename_shape (s : GoString) :
    ∃ stem : GoString, sanitizeFilename s = stem ++ goStr ".txt" ∧
      (∀ b ∈ stem, isLetter b = true ∨ b = 0x5F) ∧ stem.length ≤ 15 := by
  refine ⟨(replaceAll matchNonLetter (goStr "_") 0 s).take 15, sanitizeFilename_eq_take s, ?_, ?_⟩
  · intro b hb
    have hb2 := List.mem_of_mem_take hb
    rw [replaceAll_eq_runes s.length s (le_refl _)] at hb2
    obtain ⟨r, _, hr⟩ := List.mem_map.mp hb2
    rw [← hr]
    exact replaceRune_shape r
  · simp

/-- Claim C7: for every input string, `sanitizeFilename` is the file name of the
specification: each character that is not in `a-z` or `A-Z` replaced by one underscore,
letters kept in place, the first 15 characters kept and ".txt" appended, so that the stem has
length min(15, number of characters); and the three cases of `TestSanitizeFilename` hold. -/
theorem sanitizeFilename_eq_spec :
    (∀ s : GoString, sanitizeFilename s = sanitizeFilenameSpec s ∧
      (((runes s).map replaceRune).take 15).length = min 15 (runes s).length) ∧
    sanitizeFilename (goStr "a string") = goStr "a_string.txt" ∧
    sanitizeFilename (goStr "a string with spaces") = goStr "a_string_with_s.txt" ∧
    sanitizeFilename (goStr "!@#a string_with_special_chars!@#") =
      goStr "___a_string_wit.txt" := by
  refine ⟨fun s => ⟨?_, ?_⟩, by decide, by decide, by decide⟩
  · rw [sanitizeFilename_eq_take, replaceAll_eq_runes s.length s (le_refl _)]
    rfl
  · simp


/-- Claim C8, refuted as stated: the sanitized form of "abcdefghijkl" has 12 characters, more
than 10, and `sanitizeFilename` of translator.go keeps all 12 of them instead of the first
10. -/
theorem sanitizeFilename_keeps_twelve :
    (replaceAll matchNonLetter (goStr "_") 0 (goStr "abcdefghijkl")).length = 12 ∧
    TranslatorGo.sanitizeFilename (goStr "abcdefghijkl") = goStr "abcdefghijkl.txt" ∧
    TranslatorGo.sanitizeFilename (goStr "abcdefghijkl") ≠
      (replaceAll matchNonLetter (goStr "_") 0 (goStr "abcdefghijkl")).take 10 ++
        goStr ".txt" := by
  decide

/-- Claim C8, amended: `sanitizeFilename` of translator.go truncates the sanitized form to 15
characters when it is longer than 15 and keeps it whole otherwise, before appending ".txt";
the part before ".txt" never exceeds 15 characters. -/
theorem sanitizeFilename_truncates_fifteen (s : GoString) :
    TranslatorGo.sanitizeFilename s =
      (if 15 < (replaceAll matchNonLetter (goStr "_") 0 s).length
        then (replaceAll matchNonLetter (goStr "_") 0 s).take 15
        else replaceAll matchNonLetter (goStr "_") 0 s) ++ goStr ".txt" ∧
    (if 15 < (replaceAll matchNonLetter (goStr "_") 0 s).length
        then (replaceAll matchNonLetter (goStr "_") 0 s).take 15
        else replaceAll matchNonLetter (goStr "_") 0 s).length ≤ 15 := by
  have h : TranslatorGo.sanitizeFilename s = sanitizeFilename s := rfl
  rw [h, sanitizeFilename_eq_take]
  split
  · exact ⟨rfl, by simp⟩
  · rename_i hle
    rw [List.take_of_length_le (by omega)]
    exact ⟨rfl, by omega⟩

/-! ### Quota check -/

theorem wrap64_eq_self_iff (x : Int) : wrap64 x = x ↔ (-(2 ^ 63) ≤ x ∧ x < 2 ^ 63) := by
  unfold wrap64
  omega

theorem wrap64_of_range (x : Int) (h1 : -(2 ^ 63) ≤ x) (h2 : x < 2 ^ 63) : wrap64 x = x :=
  (wrap64_eq_self_iff x).mpr ⟨h1, h2⟩

/-- Claim C9, refuted as stated: a usage response with status 200 that decodes to
character_count = -1 and character_limit = 9223372036854775807 makes
`getRemainingCharacterLimit` return -9223372036854775808, which is not limit minus count. -/
theorem getRemainingCharacterLimit_wraps :
    getRemainingCharacterLimit (sampleEnv none 0 ⟨some (-1), some 9223372036854775807⟩) []
        (goStr "key") (goStr "yes") = .ret (-9223372036854775808) none ∧
    (-9223372036854775808 : Int) ≠ 9223372036854775807 - (-1) := by
  decide

/-- Claim C9, amended: for a usage response with status 200 whose body decodes to
character_count = c and character_limit = l (an absent field counts as 0),
`getRemainingCharacterLimit` returns, with no error, l - c reduced to the range of the 64-bit
`int`; that value is l - c exactly when l - c lies in that range. -/
theorem getRemainingCharacterLimit_ok (env : Env) (hist : List Event)
    (apiKey freeAPI : GoString) (resp : Response) (js : UsageJSON)
    (hreq : makeAPIRequest env hist (getAPIURL (goStr "usage") freeAPI) apiKey [] = .ok resp)
    (hstatus : resp.StatusCode = 200) (hjs : env.decodeUsage resp.Body = .ok js) :
    getRemainingCharacterLimit env hist apiKey freeAPI =
        .ret (wrap64 (js.character_limit.getD 0 - js.character_count.getD 0)) none ∧
      (wrap64 (js.character_limit.getD 0 - js.character_count.getD 0) =
          js.character_limit.getD 0 - js.character_count.getD 0 ↔
        (-(2 ^ 63) ≤ js.character_limit.getD 0 - js.character_count.getD 0 ∧
          js.character_limit.getD 0 - js.character_count.getD 0 < 2 ^ 63)) := by
  refine ⟨?_, wrap64_eq_self_iff _⟩
  unfold getRemainingCharacterLimit
  simp only [hreq, hstatus, hjs, ne_eq, not_true_eq_false, if_false]

theorem getRemainingCharacterLimit_ok_witness :
    (makeAPIRequest (sampleEnv none 0 ⟨some 700, none⟩) []
        (getAPIURL (goStr "usage") (goStr "yes")) (goStr "key") [] = .ok ⟨200, []⟩ ∧
      (⟨200, []⟩ : Response).StatusCode = 200 ∧
      (sampleEnv none 0 ⟨some 700, none⟩).decodeUsage (⟨200, []⟩ : Response).Body =
        .ok ⟨some 700, none⟩) ∧
    getRemainingCharacterLimit (sampleEnv none 0 ⟨some 700, none⟩) [] (goStr "key")
        (goStr "yes") = .ret (-700) none :=
  ⟨⟨by rfl, by rfl, by rfl⟩,
    (getRemainingCharacterLimit_ok (sampleEnv none 0 ⟨some 700, none⟩) [] (goStr "key")
      (goStr "yes") ⟨200, []⟩ ⟨some 700, none⟩ (by rfl) (by rfl) (by rfl)).1.trans (by decide)⟩

/-! ### Error responses -/

theorem tagRest_stripTags (t : GoString) (h : tagRest t = none) :
    tagRest (stripTags t) = none := by
  induction t with
  | nil => simp [stripTags, replaceAll, tagRest]
  | cons c t ih =>
    unfold tagRest at h
    by_cases hgt : c = 0x3E
    · simp [hgt] at h
    · by_cases hlf : c = 0x0A
      · subst hlf
        simp [stripTags, replaceAll, matchTag, tagRest]
      · simp only [hgt, hlf, if_false, Option.map_eq_none'] at h
        have ih2 := ih h
        unfold stripTags at ih2 ⊢
        by_cases hlt : c = 0x3C
        · simp only [replaceAll, matchTag, hlt, if_true, h, Option.map_none']
          rw [← hlt]
          simp only [tagRest, hgt, hlf, if_false, ih2, Option.map_none']
        · simp only [replaceAll, matchTag, hlt, if_false]
          simp only [tagRest, hgt, hlf, if_false, ih2, Option.map_none']

theorem replaceAll_matchTag_noTag (s : GoString) : ∀ (k : Nat) (pre post : GoString),
    replaceAll matchTag [] k s = pre ++ 0x3C :: post → tagRest post = none := by
  induction s with
  | nil =>
    intro k pre post h
    simp [replaceAll] at h
  | cons b t ih =>
    intro k pre post h
    cases k with
    | succ k => exact ih k pre post (by simpa [replaceAll] using h)
    | zero =>
      have hcopy : b :: replaceAll matchTag [] 0 t = pre ++ 0x3C :: post →
          (b = 0x3C → tagRest t = none) → tagRest post = none := by
        intro h2 hb
        cases pre with
        | nil =>
          simp only [List.nil_append, List.cons.injEq] at h2
          rw [← h2.2]
          exact tagRest_stripTags t (hb h2.1)
        | cons p pre =>
          simp only [List.cons_append, List.cons.injEq] at h2
          exact ih 0 pre post h2.2
      by_cases hlt : b = 0x3C
      · cases hr : tagRest t with
        | none =>
          simp only [replaceAll, matchTag, hlt, if_true, hr, Option.map_none'] at h
          rw [hlt] at hcopy
          exact hcopy h (fun _ => hr)
        | some m =>
          simp only [replaceAll, matchTag, hlt, if_true, hr, Option.map_some',
            List.nil_append] at h
          exact ih m pre post h
      · simp only [replaceAll, matchTag, hlt, if_false] at h
        exact hcopy h (fun hb => absurd hb hlt)

theorem replaceAll_matchTag_sublist (s : GoString) : ∀ k : Nat,
    List.Sublist (replaceAll matchTag [] k s) s := by
  induction s with
  | nil => intro k; simp [replaceAll]
  | cons b t ih =>
    intro k
    cases k with
    | succ k => simpa [replaceAll] using (ih k).cons b
    | zero =>
      by_cases hlt : b = 0x3C
      · cases hr : tagRest t with
        | none =>
          simp only [replaceAll, matchTag, hlt, if_true, hr, Option.map_none']
          exact (ih 0).cons₂ _
        | some m =>
          simp only [replaceAll, matchTag, hlt, if_true, hr, Option.map_some',
            List.nil_append]
          exact (ih m).cons _
      · simp only [replaceAll, matchTag, hlt, if_false]
        exact (ih 0).cons₂ _

theorem tagRest_eq_anyLine (s : GoString) (h : (0x0A : UInt8) ∉ s) :
    tagRest s = tagRestAnyLine s := by
  induction s with
  | nil => rfl
  | cons b t ih =>
    have hb : b ≠ 0x0A := fun hb => h (by rw [hb]; exact List.mem_cons_self _ _)
    have ht : (0x0A : UInt8) ∉ t := fun hm => h (List.mem_cons_of_mem _ hm)
    simp only [tagRest, tagRestAnyLine, hb, if_false, ih ht]

theorem tagRest_append_lf (t rest : GoString) (h : (0x0A : UInt8) ∉ t) :
    tagRest (t ++ 0x0A :: rest) = tagRestAnyLine t := by
  induction t with
  | nil => simp [tagRest, tagRestAnyLine]
  | cons b t ih =>
    have hb : b ≠ 0x0A := fun hb => h (by rw [hb]; exact List.mem_cons_self _ _)
    have ht : (0x0A : UInt8) ∉ t := fun hm => h (List.mem_cons_of_mem _ hm)
    rw [List.cons_append]
    simp only [tagRest, tagRestAnyLine, hb, if_false, ih ht]

theorem tagRestAnyLine_le (t : GoString) : ∀ m, tagRestAnyLine t = some m → m ≤ t.length := by
  induction t with
  | nil => intro m h; simp [tagRestAnyLine] at h
  | cons b t ih =>
    intro m h
    unfold tagRestAnyLine at h
    split at h
    · simp only [Option.some.injEq] at h
      simp only [List.length_cons]
      omega
    · cases hr : tagRestAnyLine t with
      | none => rw [hr] at h; simp at h
      | some j =>
        rw [hr] at h
        simp only [Option.map_some', Option.some.injEq] at h
        have := ih j hr
        simp only [List.length_cons]
        omega

theorem replaceAll_noLF (s : GoString) (h : (0x0A : UInt8) ∉ s) : ∀ k : Nat,
    replaceAll matchTag [] k s = replaceAll matchTagAnyLine [] k s := by
  induction s with
  | nil => intro k; simp [replaceAll]
  | cons b t ih =>
    intro k
    have ht : (0x0A : UInt8) ∉ t := fun hm => h (List.mem_cons_of_mem _ hm)
    cases k with
    | succ k => simp only [replaceAll]; exact ih ht k
    | zero =>
      have hm : matchTag (b :: t) = matchTagAnyLine (b :: t) := by
        simp only [matchTag, matchTagAnyLine, tagRest_eq_anyLine t ht]
      simp only [replaceAll, hm]
      split
      · rw [ih ht]
      · rw [ih ht]

theorem replaceAll_line (rest : GoString) (line : GoString) (h : (0x0A : UInt8) ∉ line) :
    ∀ k : Nat, k ≤ line.length →
      replaceAll matchTag [] k (line ++ 0x0A :: rest) =
        replaceAll matchTagAnyLine [] k line ++ 0x0A :: replaceAll matchTag [] 0 rest := by
  induction line with
  | nil =>
    intro k hk
    have hk0 : k = 0 := by simpa using hk
    subst hk0
    simp [replaceAll, matchTag]
  | cons b t ih =>
    intro k hk
    have ht : (0x0A : UInt8) ∉ t := fun hm => h (List.mem_cons_of_mem _ hm)
    cases k with
    | succ k =>
      rw [List.cons_append]
      simp only [replaceAll]
      exact ih ht k (by simpa using hk)
    | zero =>
      rw [List.cons_append]
      by_cases hlt : b = 0x3C
      · cases hr : tagRestAnyLine t with
        | none =>
          simp only [replaceAll, matchTag, matchTagAnyLine, hlt, if_true,
            tagRest_append_lf t rest ht, hr, Option.map_none']
          rw [ih ht 0 (Nat.zero_le _)]
          rfl
        | some m =>
          simp only [replaceAll, matchTag, matchTagAnyLine, hlt, if_true,
            tagRest_append_lf t rest ht, hr, Option.map_some', List.nil_append]
          exact ih ht m (tagRestAnyLine_le t m hr)
      · simp only [replaceAll, matchTag, matchTagAnyLine, hlt, if_false]
        rw [ih ht 0 (Nat.zero_le _)]
        rfl

theorem getRemainingCharacterLimit_non2xx (env : Env) (hist : List Event)
    (apiKey freeAPI : GoString) (resp : Response)
    (hreq : makeAPIRequest env hist (getAPIURL (goStr "usage") freeAPI) apiKey [] = .ok resp)
    (hs : ¬ (200 ≤ resp.StatusCode ∧ resp.StatusCode < 300)) :
    getRemainingCharacterLimit env hist apiKey freeAPI =
      .ret 0 (some (goStr "API error: " ++ stripTags resp.Body ++
        goStr "\nStatus Code: " ++ itoa resp.StatusCode ++ goStr "\nResponse Body: " ++
        resp.Body ++ goStr "\nPlease make sure your API key is working.")) := by
  have hs2 : resp.StatusCode ≠ 200 := by omega
  unfold getRemainingCharacterLimit
  simp only [hreq, hs2, ne_eq, not_false_eq_true, if_true, APIErrorMsg]

theorem translateChunk_non2xx (env : Env) (hist : List Event)
    (apiKey sourceLang targetLang freeAPI chunk : GoString) (resp : Response)
    (hreq : makeAPIRequest env hist (getAPIURL (goStr "translate") freeAPI) apiKey
      [(goStr "text", chunk), (goStr "source_lang", sourceLang),
        (goStr "target_lang", targetLang)] = .ok resp)
    (hs : ¬ (200 ≤ resp.StatusCode ∧ resp.StatusCode < 300)) :
    translateChunk env hist apiKey sourceLang targetLang freeAPI chunk =
      .ret [] (some (goStr "API error: " ++ stripTags resp.Body ++
        goStr "\nStatus Code: " ++ itoa resp.StatusCode ++ goStr "\nResponse Body: " ++
        resp.Body ++ goStr "\nPlease make sure your API key is working.")) := by
  have hs2 : resp.StatusCode ≠ 200 := by omega
  unfold translateChunk
  simp only [hreq, hs2, ne_eq, not_false_eq_true, if_true, APIErrorMsg]

/-- Claim C10, as the code runs it. For a response with status 403 whose body holds a tag
that spans two lines, the error of `getRemainingCharacterLimit` and of `translateChunk`
carries the body with that tag still in it, where the claim has it removed. For the rest the
claim holds: each of the two functions, on a response whose status is not 2xx, returns its
zero value and an error whose message is "API error: " followed by the cleaned body, the
status code and the body as received; the cleaned body of a body without line feed is the
body with all its tags removed, and a body of several lines is cleaned line by line. -/
theorem apiError_strips_tags_by_line :
    stripAllTags (goStr "<a\nhref>denied") = goStr "denied" ∧
    getRemainingCharacterLimit (constEnv 403 (goStr "<a\nhref>denied")) [] (goStr "key")
        (goStr "yes") =
      .ret 0 (some (APIErrorMsg (goStr "<a\nhref>denied") 403 (goStr "<a\nhref>denied"))) ∧
    translateChunk (constEnv 403 (goStr "<a\nhref>denied")) [] (goStr "key") (goStr "EN")
        (goStr "DE") (goStr "yes") (goStr "hello") =
      .ret [] (some (APIErrorMsg (goStr "<a\nhref>denied") 403 (goStr "<a\nhref>denied"))) ∧
    APIErrorMsg (goStr "<a\nhref>denied") 403 (goStr "<a\nhref>denied") ≠
      APIErrorMsg (stripAllTags (goStr "<a\nhref>denied")) 403 (goStr "<a\nhref>denied") ∧
    getRemainingCharacterLimit (sampleEnv none 0 ⟨some 10, some 500000⟩) [] (goStr "key")
        (goStr "yes") = .ret 499990 none ∧
    translateChunk (sampleEnv none 0 ⟨some 10, some 500000⟩) [] (goStr "key") (goStr "EN")
        (goStr "DE") (goStr "yes") (goStr "hello") =
      .ret [] (some (goStr
        "API error: busy\nStatus Code: 503\nResponse Body: <h1>busy</h1>\nPlease make sure your API key is working.")) ∧
    (∀ (env : Env) (hist : List Event) (apiKey freeAPI : GoString) (resp : Response),
      makeAPIRequest env hist (getAPIURL (goStr "usage") freeAPI) apiKey [] = .ok resp →
      ¬ (200 ≤ resp.StatusCode ∧ resp.StatusCode < 300) →
      getRemainingCharacterLimit env hist apiKey freeAPI =
        .ret 0 (some (goStr "API error: " ++ stripTags resp.Body ++
          goStr "\nStatus Code: " ++ itoa resp.StatusCode ++ goStr "\nResponse Body: " ++
          resp.Body ++ goStr "\nPlease make sure your API key is working."))) ∧
    (∀ (env : Env) (hist : List Event) (apiKey sourceLang targetLang freeAPI chunk : GoString)
        (resp : Response),
      makeAPIRequest env hist (getAPIURL (goStr "translate") freeAPI) apiKey
        [(goStr "text", chunk), (goStr "source_lang", sourceLang),
          (goStr "target_lang", targetLang)] = .ok resp →
      ¬ (200 ≤ resp.StatusCode ∧ resp.StatusCode < 300) →
      translateChunk env hist apiKey sourceLang targetLang freeAPI chunk =
        .ret [] (some (goStr "API error: " ++ stripTags resp.Body ++
          goStr "\nStatus Code: " ++ itoa resp.StatusCode ++ goStr "\nResponse Body: " ++
          resp.Body ++ goStr "\nPlease make sure your API key is working."))) ∧
    (∀ body : GoString, (0x0A : UInt8) ∉ body → stripTags body = stripAllTags body) ∧
    (∀ line rest : GoString, (0x0A : UInt8) ∉ line →
      stripTags (line ++ 0x0A :: rest) = stripAllTags line ++ 0x0A :: stripTags rest) := by
  refine ⟨by decide, by decide, by decide, by decide, by decide, by decide, ?_, ?_, ?_, ?_⟩
  · intro env hist apiKey freeAPI resp hreq hs
    exact getRemainingCharacterLimit_non2xx env hist apiKey freeAPI resp hreq hs
  · intro env hist apiKey sourceLang targetLang freeAPI chunk resp hreq hs
    exact translateChunk_non2xx env hist apiKey sourceLang targetLang freeAPI chunk resp hreq hs
  · intro body h
    exact replaceAll_noLF body h 0
  · intro line rest h
    exact replaceAll_line rest line h 0 (Nat.zero_le _)

/-! ### The translation loop -/

theorem translateCalls_append (xs ys : List Event) :
    translateCalls (xs ++ ys) = translateCalls xs ++ translateCalls ys := by
  induction xs with
  | nil => rfl
  | cons e xs ih => cases e <;> simp [translateCalls, ih]

theorem outputs_append (xs ys : List Event) : outputs (xs ++ ys) = outputs xs ++ outputs ys := by
  induction xs with
  | nil => rfl
  | cons e xs ih => cases e <;> simp [outputs, ih]

theorem afterFailure_append (xs ys : List Event) :
    afterFailure (xs ++ ys) =
      match afterFailure xs with
      | some rest => some (rest ++ ys)
      | none => afterFailure ys := by
  induction xs with
  | nil => rfl
  | cons e xs ih =>
    cases e with
    | translate k s t f c r =>
      cases r with
      | panic m => simpa [afterFailure] using ih
      | ret v err =>
        cases err with
        | none => simpa [afterFailure] using ih
        | some err => simp [afterFailure]
    | _ => simpa [afterFailure] using ih

theorem translateCalls_okEvents (p : Prepared) (cs : List (GoString × GoString)) :
    translateCalls (okEvents p cs) = cs.map (fun ct => (ct.1, Ret.ret ct.2 none)) := by
  induction cs with
  | nil => rfl
  | cons ct cs ih => simp [okEvents, translateEvent, translateCalls, ih]

theorem outputs_okEvents (p : Prepared) (cs : List (GoString × GoString)) :
    outputs (okEvents p cs) = [] := by
  induction cs with
  | nil => rfl
  | cons ct cs ih => simp [okEvents, translateEvent, outputs, ih]

theorem afterFailure_okEvents (p : Prepared) (cs : List (GoString × GoString)) :
    afterFailure (okEvents p cs) = none := by
  induction cs with
  | nil => rfl
  | cons ct cs ih => simp [okEvents, translateEvent, afterFailure, ih]

/-- How the loop can end: all iterations done, an error returned by a call, a panic of a
call, or a slice out of range. -/
theorem chunkLoop_shape (env : Env) (p : Prepared) : ∀ (n : Nat) (i : Int) (tr : List Event)
    (b : GoString), ∃ cs : List (GoString × GoString),
      cs.map (fun ct => some ct.1) = (loopChunks p n i).take cs.length ∧
      ((cs.length = n ∧
          chunkLoop env p n i tr b = .done (tr ++ okEvents p cs) (b ++ (cs.map Prod.snd).flatten)) ∨
        (∃ c v err, (loopChunks p n i)[cs.length]? = some (some c) ∧
          chunkLoop env p n i tr b = .abort (tr ++ okEvents p cs ++
            [translateEvent p c (.ret v (some err)),
              .stdout (goStr "Error translating chunk: " ++ err ++ goStr "\n")])) ∨
        (∃ c msg, (loopChunks p n i)[cs.length]? = some (some c) ∧
          chunkLoop env p n i tr b =
            .panic (tr ++ okEvents p cs ++ [translateEvent p c (.panic msg)]) msg) ∨
        ((loopChunks p n i)[cs.length]? = some none ∧
          chunkLoop env p n i tr b =
            .panic (tr ++ okEvents p cs) (goStr "slice bounds out of range"))) := by
  intro n
  induction n with
  | zero =>
    intro i tr b
    exact ⟨[], rfl, Or.inl ⟨rfl, by simp [chunkLoop, okEvents]⟩⟩
  | succ n ih =>
    intro i tr b
    cases hs : slice p.inputData (chunkBounds p i).1 (chunkBounds p i).2 with
    | none =>
      refine ⟨[], rfl, Or.inr (Or.inr (Or.inr ⟨?_, ?_⟩))⟩
      · simp [loopChunks, hs]
      · simp [chunkLoop, hs, okEvents]
    | some chunk =>
      cases hr : translateChunk env tr p.apiKey p.sourceLang p.targetLang p.freeAPI chunk with
      | panic msg =>
        refine ⟨[], rfl, Or.inr (Or.inr (Or.inl ⟨chunk, msg, ?_, ?_⟩))⟩
        · simp [loopChunks, hs]
        · simp [chunkLoop, hs, hr, okEvents, translateEvent]
      | ret v err =>
        cases err with
        | some err =>
          refine ⟨[], rfl, Or.inr (Or.inl ⟨chunk, v, err, ?_, ?_⟩)⟩
          · simp [loopChunks, hs]
          · simp [chunkLoop, hs, hr, okEvents, translateEvent]
        | none =>
          obtain ⟨cs, hcs, hshape⟩ := ih (wrap64 (i + 1))
            (tr ++ [translateEvent p chunk (.ret v none)] ++ [.stdout (goStr ".")]) (b ++ v)
          refine ⟨(chunk, v) :: cs, ?_, ?_⟩
          · simp [loopChunks, hs, hcs]
          · have hstep : chunkLoop env p (n + 1) i tr b =
                chunkLoop env p n (wrap64 (i + 1))
                  (tr ++ [translateEvent p chunk (.ret v none)] ++ [.stdout (goStr ".")])
                  (b ++ v) := by
              simp [chunkLoop, hs, hr, translateEvent]
            rw [hstep]
            rcases hshape with ⟨hl, h⟩ | ⟨c, v2, err, hc, h⟩ | ⟨c, msg, hc, h⟩ | ⟨hc, h⟩
            · exact Or.inl ⟨by simp [hl], by rw [h]; simp [okEvents]⟩
            · exact Or.inr (Or.inl ⟨c, v2, err, by simpa [loopChunks] using hc,
                by rw [h]; simp [okEvents]⟩)
            · exact Or.inr (Or.inr (Or.inl ⟨c, msg, by simpa [loopChunks] using hc,
                by rw [h]; simp [okEvents]⟩))
            · exact Or.inr (Or.inr (Or.inr ⟨by simpa [loopChunks] using hc,
                by rw [h]; simp [okEvents]⟩))


theorem ceilDiv_bounds (l m : Nat) (hm : 0 < m) (hl : 0 < l) :
    ((l + m - 1) / m - 1) * m < l ∧ l ≤ (l + m - 1) / m * m ∧ 0 < (l + m - 1) / m := by
  have h1 := Nat.div_add_mod (l + m - 1) m
  have h2 := Nat.mod_lt (l + m - 1) hm
  have h3 : 0 < (l + m - 1) / m := Nat.div_pos (by omega) hm
  rw [Nat.sub_mul, Nat.mul_comm ((l + m - 1) / m) m]
  refine ⟨?_, ?_, h3⟩
  · have : m * 1 ≤ m * ((l + m - 1) / m) := Nat.mul_le_mul_left m h3
    omega
  · omega

theorem ceilDiv_eq_ceil (l m : Nat) (hm : 0 < m) (hl : 0 < l) :
    ⌈(l : ℚ) / (m : ℚ)⌉₊ = (l + m - 1) / m := by
  obtain ⟨h1, h2, h3⟩ := ceilDiv_bounds l m hm hl
  have hmq : (0 : ℚ) < m := by exact_mod_cast hm
  rw [Nat.ceil_eq_iff (by omega)]
  constructor
  · rw [lt_div_iff₀ hmq]
    exact_mod_cast h1
  · rw [div_le_iff₀ hmq]
    exact_mod_cast h2

theorem index_mul_lt (l m k : Nat) (hm : 0 < m) (hl : 0 < l) (hk : k < (l + m - 1) / m) :
    k * m < l := by
  obtain ⟨h1, _, _⟩ := ceilDiv_bounds l m hm hl
  have : k * m ≤ ((l + m - 1) / m - 1) * m := Nat.mul_le_mul_right m (by omega)
  omega

theorem wrap64_natCast (n : Nat) (h : n < 2 ^ 63) : wrap64 (n : Int) = (n : Int) := by
  apply wrap64_of_range <;> omega

theorem totalChunks_eq (p : Prepared) (m : Nat) (hm : p.settings.MaxRequestSize = (m : Int))
    (hpos : 0 < m) (hlt : m < p.inputData.length) (hlen : p.inputData.length < 2 ^ 62) :
    totalChunks p = (((p.inputData.length + m - 1) / m : Nat) : Int) := by
  have hdiv : (p.inputData.length + m - 1) / m ≤ p.inputData.length + m - 1 :=
    Nat.div_le_self _ _
  unfold totalChunks len
  rw [hm]
  have c1 : (p.inputData.length : Int) + (m : Int) = ((p.inputData.length + m : Nat) : Int) := by
    push_cast; rfl
  have c2 : ((p.inputData.length + m : Nat) : Int) - 1 =
      ((p.inputData.length + m - 1 : Nat) : Int) := by omega
  have c3 : (((p.inputData.length + m - 1 : Nat) : Int)).tdiv (m : Int) =
      (((p.inputData.length + m - 1) / m : Nat) : Int) := (Int.ofNat_tdiv _ _).symm
  rw [c1, wrap64_natCast _ (by omega), c2, wrap64_natCast _ (by omega), c3,
    wrap64_natCast _ (by omega)]

theorem chunkBounds_eq (p : Prepared) (m k : Nat) (hm : p.settings.MaxRequestSize = (m : Int))
    (hlt : m < p.inputData.length) (hlen : p.inputData.length < 2 ^ 62)
    (hk : k * m < p.inputData.length) :
    chunkBounds p (k : Int) =
      (((k * m : Nat) : Int), ((min (k * m + m) p.inputData.length : Nat) : Int)) := by
  unfold chunkBounds len
  rw [hm]
  have c1 : (k : Int) * (m : Int) = ((k * m : Nat) : Int) := by push_cast; rfl
  have c2 : ((k * m : Nat) : Int) + (m : Int) = ((k * m + m : Nat) : Int) := by push_cast; rfl
  simp only [c1, wrap64_natCast (k * m) (by omega), c2, wrap64_natCast (k * m + m) (by omega)]
  by_cases hc : k * m + m ≤ p.inputData.length
  · rw [if_neg (by omega), Nat.min_eq_left hc]
  · rw [if_pos (by omega), Nat.min_eq_right (by omega)]

theorem slice_chunkAt (data : GoString) (m k : Nat) (hk : k * m < data.length) :
    slice data ((k * m : Nat) : Int) ((min (k * m + m) data.length : Nat) : Int) =
      some (chunkAt data m k) := by
  unfold slice len chunkAt
  rw [if_pos (by omega)]
  simp only [Int.toNat_ofNat, Option.some.injEq]
  rw [List.take_eq_take]
  simp only [List.length_drop]
  omega

theorem loopChunks_eq (p : Prepared) (m : Nat) (hm : p.settings.MaxRequestSize = (m : Int))
    (hpos : 0 < m) (hlt : m < p.inputData.length) (hlen : p.inputData.length < 2 ^ 62) :
    ∀ n k : Nat, k + n ≤ (p.inputData.length + m - 1) / m →
      loopChunks p n (k : Int) =
        (List.range' k n).map (fun j => some (chunkAt p.inputData m j)) := by
  intro n
  induction n with
  | zero => intro k _; rfl
  | succ n ih =>
    intro k hk
    have hkm : k * m < p.inputData.length :=
      index_mul_lt p.inputData.length m k hpos (by omega) (by omega)
    have hdiv : (p.inputData.length + m - 1) / m ≤ p.inputData.length + m - 1 :=
      Nat.div_le_self _ _
    have e1 : wrap64 ((k : Int) + 1) = ((k + 1 : Nat) : Int) := by
      have c1 : (k : Int) + 1 = ((k + 1 : Nat) : Int) := by push_cast; rfl
      rw [c1, wrap64_natCast _ (by omega)]
    simp only [loopChunks, chunkBounds_eq p m k hm hlt hlen hkm, slice_chunkAt _ m k hkm, e1,
      List.range'_succ, List.map_cons]
    rw [ih (k + 1) (by omega)]


theorem length_loopChunks (p : Prepared) : ∀ (n : Nat) (i : Int), (loopChunks p n i).length = n := by
  intro n
  induction n with
  | zero => intro i; rfl
  | succ n ih => intro i; simp [loopChunks, ih]

theorem succeeded_okEvents (p : Prepared) (cs : List (GoString × GoString)) :
    ∀ c ∈ translateCalls (okEvents p cs), Ret.succeeded c.2 = true := by
  intro c hc
  rw [translateCalls_okEvents] at hc
  obtain ⟨ct, _, rfl⟩ := List.mem_map.mp hc
  rfl

theorem resultText_okEvents (p : Prepared) (cs : List (GoString × GoString)) :
    (translateCalls (okEvents p cs)).map (fun c => resultText c.2) = cs.map Prod.snd := by
  rw [translateCalls_okEvents, List.map_map]
  rfl

theorem chunks_okEvents (p : Prepared) (cs : List (GoString × GoString)) :
    (translateCalls (okEvents p cs)).map (fun c => some c.1) = cs.map (fun ct => some ct.1) := by
  rw [translateCalls_okEvents, List.map_map]
  rfl

/-- How the translation step (lines 111 to 137) can end, for every environment and every
value of the settings. -/
theorem translateData_shape (env : Env) (p : Prepared) (tr : List Event) :
    ∃ evs : List Event, outputs evs = [] ∧
      ((∃ text, translateData env p tr = .done (tr ++ evs) text ∧ afterFailure evs = none ∧
          (∀ c ∈ translateCalls evs, Ret.succeeded c.2 = true) ∧
          text = ((translateCalls evs).map (fun c => resultText c.2)).flatten ∧
          (translateCalls evs).map (fun c => some c.1) =
            (if len p.inputData ≤ p.settings.MaxRequestSize then [some p.inputData]
              else loopChunks p (totalChunks p).toNat 0)) ∨
        (translateData env p tr = .abort (tr ++ evs) ∧
          (∃ err, afterFailure evs =
              some [.stdout (goStr "Error translating text: " ++ err ++ goStr "\n")] ∨
            afterFailure evs =
              some [.stdout (goStr "Error translating chunk: " ++ err ++ goStr "\n")]) ∧
          ∃ c ∈ translateCalls evs, Ret.succeeded c.2 = false) ∨
        (∃ msg, translateData env p tr = .panic (tr ++ evs) msg ∧ afterFailure evs = none ∧
          ((∃ c ∈ translateCalls evs, Ret.succeeded c.2 = false) ∨
            (¬ len p.inputData ≤ p.settings.MaxRequestSize ∧
              (p.settings.MaxRequestSize = 0 ∨
                (loopChunks p (totalChunks p).toNat 0)[(translateCalls evs).length]? =
                  some none))))) := by
  by_cases hle : len p.inputData ≤ p.settings.MaxRequestSize
  · cases hr : translateChunk env tr p.apiKey p.sourceLang p.targetLang p.freeAPI
        p.inputData with
    | panic msg =>
      refine ⟨[translateEvent p p.inputData (.panic msg)], rfl, Or.inr (Or.inr ⟨msg, ?_, rfl,
        Or.inl ⟨(p.inputData, .panic msg), ?_, rfl⟩⟩)⟩
      · simp [translateData, hle, hr, translateEvent]
      · simp [translateCalls, translateEvent]
    | ret v err =>
      cases err with
      | some err =>
        refine ⟨[translateEvent p p.inputData (.ret v (some err)),
          .stdout (goStr "Error translating text: " ++ err ++ goStr "\n")], rfl,
          Or.inr (Or.inl ⟨?_, ⟨err, Or.inl rfl⟩, ⟨(p.inputData, .ret v (some err)), ?_, rfl⟩⟩)⟩
        · simp [translateData, hle, hr, translateEvent]
        · simp [translateCalls, translateEvent]
      | none =>
        refine ⟨[translateEvent p p.inputData (.ret v none)], rfl,
          Or.inl ⟨v, ?_, rfl, ?_, ?_, ?_⟩⟩
        · simp [translateData, hle, hr, translateEvent]
        · simp [translateCalls, translateEvent, Ret.succeeded]
        · simp [translateCalls, translateEvent, resultText]
        · simp [translateCalls, translateEvent, hle]
  · by_cases hz : p.settings.MaxRequestSize = 0
    · refine ⟨[], rfl, Or.inr (Or.inr ⟨goStr "integer divide by zero", ?_, rfl,
        Or.inr ⟨hle, Or.inl hz⟩⟩)⟩
      have hle0 : ¬ len p.inputData ≤ 0 := by rw [hz] at hle; exact hle
      simp only [translateData, hz, hle0, if_false, if_true, List.append_nil]
    · have hdata : translateData env p tr =
          match chunkLoop env p (totalChunks p).toNat 0 tr [] with
          | .done tr text => .done (tr ++ [.stdout (goStr "\n")]) text
          | out => out := by
        simp only [translateData, hle, hz, if_false]
      obtain ⟨cs, hcs, hshape⟩ := chunkLoop_shape env p (totalChunks p).toNat 0 tr []
      rcases hshape with ⟨hl, h⟩ | ⟨c, v, err, hc, h⟩ | ⟨c, msg, hc, h⟩ | ⟨hc, h⟩
      · refine ⟨okEvents p cs ++ [.stdout (goStr "\n")], ?_, Or.inl
          ⟨(cs.map Prod.snd).flatten, ?_, ?_, ?_, ?_, ?_⟩⟩
        · simp [outputs_append, outputs_okEvents, outputs]
        · rw [hdata, h]; simp
        · simp [afterFailure_append, afterFailure_okEvents, afterFailure]
        · intro c hc
          rw [translateCalls_append] at hc
          simp only [translateCalls, List.append_nil] at hc
          exact succeeded_okEvents p cs c hc
        · rw [translateCalls_append]
          simp only [translateCalls, List.append_nil]
          rw [resultText_okEvents]
        · rw [translateCalls_append]
          simp only [translateCalls, List.append_nil]
          rw [chunks_okEvents, hcs, if_neg hle, hl]
          exact List.take_of_length_le (by rw [length_loopChunks])
      · refine ⟨okEvents p cs ++ [translateEvent p c (.ret v (some err)),
          .stdout (goStr "Error translating chunk: " ++ err ++ goStr "\n")], ?_,
          Or.inr (Or.inl ⟨?_, ⟨err, Or.inr ?_⟩, ⟨(c, .ret v (some err)), ?_, rfl⟩⟩)⟩
        · simp [outputs_append, outputs_okEvents, outputs, translateEvent]
        · rw [hdata, h]; simp
        · simp [afterFailure_append, afterFailure_okEvents, afterFailure, translateEvent]
        · simp [translateCalls_append, translateCalls, translateEvent]
      · refine ⟨okEvents p cs ++ [translateEvent p c (.panic msg)], ?_,
          Or.inr (Or.inr ⟨msg, ?_, ?_, Or.inl ⟨(c, .panic msg), ?_, rfl⟩⟩)⟩
        · simp [outputs_append, outputs_okEvents, outputs, translateEvent]
        · rw [hdata, h]; simp
        · simp [afterFailure_append, afterFailure_okEvents, afterFailure, translateEvent]
        · simp [translateCalls_append, translateCalls, translateEvent]
      · refine ⟨okEvents p cs, outputs_okEvents p cs,
          Or.inr (Or.inr ⟨goStr "slice bounds out of range", ?_, afterFailure_okEvents p cs,
            Or.inr ⟨hle, Or.inr ?_⟩⟩)⟩
        · rw [hdata, h]
        · rw [translateCalls_okEvents, List.length_map]
          exact hc


/-! ### Output and the run as a whole -/

theorem getRemainingCharacterLimit_returns (env : Env) (hist : List Event)
    (apiKey freeAPI : GoString) :
    ∃ v err, getRemainingCharacterLimit env hist apiKey freeAPI = .ret v err := by
  unfold getRemainingCharacterLimit
  dsimp only
  split
  · exact ⟨_, _, rfl⟩
  · split
    · exact ⟨_, _, rfl⟩
    · split
      · exact ⟨_, _, rfl⟩
      · exact ⟨_, _, rfl⟩

theorem extScan_length (r : GoString) : ∀ acc : GoString,
    (extScan r acc).length ≤ r.length + acc.length := by
  induction r with
  | nil => intro acc; simp [extScan]
  | cons c t ih =>
    intro acc
    unfold extScan
    split
    · simp
    · split
      · simp only [List.length_cons]; omega
      · have := ih (c :: acc)
        simp only [List.length_cons] at this ⊢
        omega

theorem filepathExt_length (path : GoString) : (filepathExt path).length ≤ path.length := by
  have := extScan_length path.reverse []
  simpa [filepathExt] using this

theorem outputFileName_some (a : Args) : ∃ name, outputFileName a = some name := by
  unfold outputFileName
  split
  · split
    · exact ⟨_, rfl⟩
    · have hlen := filepathExt_length a.inputFile
      have hs : slice a.inputFile 0 (len a.inputFile - len (filepathExt a.inputFile)) =
          some ((a.inputFile.drop 0).take
            ((len a.inputFile - len (filepathExt a.inputFile)).toNat - 0)) := by
        unfold slice len
        rw [if_pos (by omega)]
        rfl
      simp only [hs, Option.map_some']
      exact ⟨_, rfl⟩
  · exact ⟨_, rfl⟩

theorem reportRemaining_shape (env : Env) (p : Prepared) (tr : List Event) :
    ∃ evs, reportRemaining env p tr = ⟨tr ++ evs, .returned⟩ ∧ translateCalls evs = [] ∧
      outputs evs = [] ∧ afterFailure evs = none := by
  obtain ⟨v, err, hr⟩ := getRemainingCharacterLimit_returns env tr p.apiKey p.freeAPI
  cases err with
  | some err =>
    refine ⟨[.quota p.apiKey p.freeAPI (.ret v (some err)),
      .stdout (goStr "Error getting remaining character limit: " ++ err ++ goStr "\n")],
      ?_, rfl, rfl, rfl⟩
    simp [reportRemaining, hr]
  | none =>
    refine ⟨[.quota p.apiKey p.freeAPI (.ret v none),
      .stdout (goStr "Remaining character limit: " ++ itoa v ++ goStr "\n")],
      ?_, rfl, rfl, rfl⟩
    simp [reportRemaining, hr]

theorem writeOutput_shape (env : Env) (a : Args) (p : Prepared) (tr : List Event)
    (text : GoString) :
    ∃ evs, writeOutput env a p tr text = ⟨tr ++ evs, .returned⟩ ∧ translateCalls evs = [] ∧
      outputs evs = [text] ∧ afterFailure evs = none := by
  by_cases hscreen : a.output = goStr "screen"
  · obtain ⟨evs, h, h1, h2, h3⟩ := reportRemaining_shape env p
      (tr ++ [.stdout (goStr "Translated Text:\n"), .printTranslated text])
    refine ⟨[.stdout (goStr "Translated Text:\n"), .printTranslated text] ++ evs, ?_, ?_, ?_, ?_⟩
    · simp only [writeOutput, hscreen, if_true, h, List.append_assoc]
    · simp [translateCalls_append, translateCalls, h1]
    · simp [outputs_append, outputs, h2]
    · simp [afterFailure_append, afterFailure, h3]
  · obtain ⟨name, hname⟩ := outputFileName_some a
    cases hw : env.writeFile tr name text with
    | some err =>
      refine ⟨[.writeFile name text (some err),
        .stdout (goStr "Error writing output file: " ++ err ++ goStr "\n")], ?_, rfl, rfl, rfl⟩
      simp [writeOutput, hscreen, hname, hw]
    | none =>
      obtain ⟨evs, h, h1, h2, h3⟩ := reportRemaining_shape env p
        (tr ++ [Event.writeFile name text none] ++
          [.stdout (goStr "Translation successful!\n")])
      refine ⟨[.writeFile name text none, .stdout (goStr "Translation successful!\n")] ++ evs,
        ?_, ?_, ?_, ?_⟩
      · simp only [writeOutput, hscreen, if_false, hname, hw, h]
        simp
      · simp [translateCalls_append, translateCalls, h1]
      · simp [outputs_append, outputs, h2]
      · simp [afterFailure_append, afterFailure, h3]


theorem flatten_chunkAt (data : GoString) (m : Nat) : ∀ n k : Nat,
    ((List.range' k n).map (chunkAt data m)).flatten = (data.drop (k * m)).take (n * m) := by
  intro n
  induction n with
  | zero => intro k; simp
  | succ n ih =>
    intro k
    rw [List.range'_succ, List.map_cons, List.flatten_cons, ih (k + 1)]
    have e1 : (n + 1) * m = m + n * m := by ring
    have e2 : (k + 1) * m = k * m + m := by ring
    rw [e1, List.take_add, e2, List.drop_drop]
    rfl

theorem chunkAt_of_index (data : GoString) (m T i : Nat) (c : GoString)
    (h : ((List.range' 0 T).map (chunkAt data m))[i]? = some c) :
    i < T ∧ c = chunkAt data m i := by
  rw [List.getElem?_map] at h
  cases hr : (List.range' 0 T)[i]? with
  | none => rw [hr] at h; cases h
  | some j =>
    rw [hr] at h
    have hi : i < (List.range' 0 T).length := (List.getElem?_eq_some.mp hr).1
    have hj : j = 0 + 1 * i := by
      have := (List.getElem?_eq_some.mp hr).2
      rw [List.getElem_range'] at this
      exact this.symm
    simp only [Option.map_some', Option.some.injEq] at h
    rw [List.length_range'] at hi
    exact ⟨hi, by rw [← h, hj]; simp⟩

theorem translatePrepared_pass (env : Env) (a : Args) (p : Prepared) (rem : Int)
    (hq : getRemainingCharacterLimit env [] p.apiKey p.freeAPI = .ret rem none)
    (hrem : len p.inputData ≤ rem) :
    translatePrepared env a p =
      match translateData env p [Event.quota p.apiKey p.freeAPI (.ret rem none)] with
      | .abort tr => ⟨tr, .returned⟩
      | .panic tr msg => ⟨tr, .panicked msg⟩
      | .done tr translatedText => writeOutput env a p tr translatedText := by
  simp only [translatePrepared, hq, gt_iff_lt, not_lt.mpr hrem, if_false]

/-- A run in which the quota check passes and every `translateChunk` call succeeds: the
translation step ends normally, its calls are the only ones of the run, and the text they
returned, joined in call order, is the one text that is put out. -/
theorem run_of_success (env : Env) (a : Args) (p : Prepared) (rem : Int)
    (hprep : prepare env a = .ok p)
    (hM : 1 ≤ p.settings.MaxRequestSize) (hlen : p.inputData.length < 2 ^ 62)
    (hq : getRemainingCharacterLimit env [] p.apiKey p.freeAPI = .ret rem none)
    (hrem : len p.inputData ≤ rem)
    (hall : ∀ c ∈ translateCalls (translateCLI env a).trace, Ret.succeeded c.2 = true) :
    (translateCLI env a).exit = .returned ∧
      outputs (translateCLI env a).trace =
        [((translateCalls (translateCLI env a).trace).map (fun c => resultText c.2)).flatten] ∧
      (translateCalls (translateCLI env a).trace).map (fun c => some c.1) =
        (if len p.inputData ≤ p.settings.MaxRequestSize then [some p.inputData]
          else loopChunks p (totalChunks p).toNat 0) := by
  have hrun : translateCLI env a = translatePrepared env a p := by
    simp only [translateCLI, hprep]
  rw [hrun, translatePrepared_pass env a p rem hq hrem] at hall ⊢
  obtain ⟨evs, hout, hshape⟩ :=
    translateData_shape env p [Event.quota p.apiKey p.freeAPI (.ret rem none)]
  rcases hshape with ⟨text, h, _, _, htext, hchunks⟩ | ⟨h, _, c, hc, hbad⟩ |
    ⟨msg, h, _, ⟨c, hc, hbad⟩ | ⟨hle, hz | hnone⟩⟩
  · obtain ⟨evs2, h2, hc2, ho2, _⟩ := writeOutput_shape env a p
      ([Event.quota p.apiKey p.freeAPI (.ret rem none)] ++ evs) text
    rw [h]
    simp only [h2]
    have hcalls : translateCalls
        ([Event.quota p.apiKey p.freeAPI (.ret rem none)] ++ evs ++ evs2) =
        translateCalls evs := by
      simp [translateCalls_append, hc2, translateCalls]
    refine ⟨trivial, ?_, ?_⟩
    · rw [hcalls, ← htext]
      simp [outputs_append, hout, ho2, outputs]
    · rw [hcalls, hchunks]
  · rw [h] at hall
    have := hall c (by simp [translateCalls_append, translateCalls, hc])
    rw [hbad] at this
    cases this
  · rw [h] at hall
    have := hall c (by simp [translateCalls_append, translateCalls, hc])
    rw [hbad] at this
    cases this
  · omega
  · exfalso
    have hm : p.settings.MaxRequestSize = ((p.settings.MaxRequestSize.toNat : Nat) : Int) :=
      (Int.toNat_of_nonneg (by omega)).symm
    have hlt : p.settings.MaxRequestSize.toNat < p.inputData.length := by
      unfold len at hle; omega
    have hT := totalChunks_eq p _ hm (by omega) hlt hlen
    rw [hT, Int.toNat_ofNat] at hnone
    have hcast : (0 : Int) = ((0 : Nat) : Int) := rfl
    rw [hcast, loopChunks_eq p _ hm (by omega) hlt hlen _ 0 (by omega),
      List.getElem?_map] at hnone
    cases hr : (List.range' 0 ((p.inputData.length + p.settings.MaxRequestSize.toNat - 1) /
        p.settings.MaxRequestSize.toNat))[(translateCalls evs).length]? with
    | none => rw [hr] at hnone; cases hnone
    | some j => rw [hr] at hnone; cases hnone


/-- Claim C1: in a run of `translateCLI` that reaches the translation step (the input is
prepared and the quota check passes), with MaxRequestSize at least 1 and an input below 2^62
bytes, when every `translateChunk` call succeeds: an input of at most MaxRequestSize bytes is
sent whole in exactly one call, a longer one in exactly ceil(len / MaxRequestSize) calls, and
the one text that is put out is the concatenation of the results in call order. -/
theorem translateCLI_call_count (env : Env) (a : Args) (p : Prepared) (rem : Int)
    (hprep : prepare env a = .ok p)
    (hM : 1 ≤ p.settings.MaxRequestSize) (hlen : p.inputData.length < 2 ^ 62)
    (hq : getRemainingCharacterLimit env [] p.apiKey p.freeAPI = .ret rem none)
    (hrem : len p.inputData ≤ rem)
    (hall : ∀ c ∈ translateCalls (translateCLI env a).trace, Ret.succeeded c.2 = true) :
    (if len p.inputData ≤ p.settings.MaxRequestSize
      then (translateCalls (translateCLI env a).trace).map Prod.fst = [p.inputData]
      else (translateCalls (translateCLI env a).trace).length =
        ⌈(p.inputData.length : ℚ) / (p.settings.MaxRequestSize : ℚ)⌉₊) ∧
    outputs (translateCLI env a).trace =
      [((translateCalls (translateCLI env a).trace).map (fun c => resultText c.2)).flatten] := by
  obtain ⟨_, hout, hchunks⟩ := run_of_success env a p rem hprep hM hlen hq hrem hall
  refine ⟨?_, hout⟩
  split
  · rename_i hle
    rw [if_pos hle] at hchunks
    have hmap : (translateCalls (translateCLI env a).trace).map (fun c => some c.1) =
        ((translateCalls (translateCLI env a).trace).map Prod.fst).map some := by
      rw [List.map_map]; rfl
    rw [hmap] at hchunks
    exact List.map_injective_iff.mpr (Option.some_injective _) hchunks
  · rename_i hle
    rw [if_neg hle] at hchunks
    have hm : p.settings.MaxRequestSize = ((p.settings.MaxRequestSize.toNat : Nat) : Int) :=
      (Int.toNat_of_nonneg (by omega)).symm
    have hlt : p.settings.MaxRequestSize.toNat < p.inputData.length := by
      unfold len at hle; omega
    have hT := totalChunks_eq p _ hm (by omega) hlt hlen
    have hl := congrArg List.length hchunks
    rw [List.length_map, length_loopChunks, hT, Int.toNat_ofNat] at hl
    rw [hl]
    have hcast : (p.settings.MaxRequestSize : ℚ) = ((p.settings.MaxRequestSize.toNat : Nat) : ℚ) := by
      conv_lhs => rw [hm]
      exact Int.cast_natCast _
    rw [hcast, ceilDiv_eq_ceil _ _ (by omega) (by omega)]

theorem translateCLI_call_count_witness :
    (prepare (sampleEnv (some 4) 99 ⟨some 10, some 500000⟩)
        (sampleArgs (goStr "hello world") (goStr "file")) =
          .ok (samplePrepared 4 (goStr "hello world")) ∧
      1 ≤ (samplePrepared 4 (goStr "hello world")).settings.MaxRequestSize ∧
      (samplePrepared 4 (goStr "hello world")).inputData.length < 2 ^ 62 ∧
      getRemainingCharacterLimit (sampleEnv (some 4) 99 ⟨some 10, some 500000⟩) []
        (samplePrepared 4 (goStr "hello world")).apiKey
        (samplePrepared 4 (goStr "hello world")).freeAPI = .ret 499990 none ∧
      len (samplePrepared 4 (goStr "hello world")).inputData ≤ 499990 ∧
      ∀ c ∈ translateCalls (translateCLI (sampleEnv (some 4) 99 ⟨some 10, some 500000⟩)
        (sampleArgs (goStr "hello world") (goStr "file"))).trace, Ret.succeeded c.2 = true) ∧
    outputs (translateCLI (sampleEnv (some 4) 99 ⟨some 10, some 500000⟩)
        (sampleArgs (goStr "hello world") (goStr "file"))).trace =
      [((translateCalls (translateCLI (sampleEnv (some 4) 99 ⟨some 10, some 500000⟩)
        (sampleArgs (goStr "hello world") (goStr "file"))).trace).map
          (fun c => resultText c.2)).flatten] :=
  ⟨⟨by rfl, by decide, by decide, by decide, by decide, by decide⟩,
    (translateCLI_call_count (sampleEnv (some 4) 99 ⟨some 10, some 500000⟩)
      (sampleArgs (goStr "hello world") (goStr "file")) (samplePrepared 4 (goStr "hello world"))
      499990 (by rfl) (by decide) (by decide) (by decide) (by decide) (by decide)).2⟩


/-- Claim C2: for an input longer than MaxRequestSize (at least 1, input below 2^62 bytes),
the slices `inputData[start:end]` that the loop cuts are all in range, with
0 <= start < end <= len(input); in a run whose calls all succeed they are the chunks sent,
in order; every chunk but the last has exactly MaxRequestSize bytes, the last has between 1
and MaxRequestSize bytes, and the chunks concatenated in order are the input. -/
theorem translateCLI_chunks_partition (env : Env) (a : Args) (p : Prepared) (rem : Int)
    (hprep : prepare env a = .ok p)
    (hM : 1 ≤ p.settings.MaxRequestSize)
    (hlt : p.settings.MaxRequestSize < len p.inputData)
    (hlen : p.inputData.length < 2 ^ 62)
    (hq : getRemainingCharacterLimit env [] p.apiKey p.freeAPI = .ret rem none)
    (hrem : len p.inputData ≤ rem)
    (hall : ∀ c ∈ translateCalls (translateCLI env a).trace, Ret.succeeded c.2 = true) :
    ∃ chunks : List GoString,
      loopChunks p (totalChunks p).toNat 0 = chunks.map some ∧
      (translateCalls (translateCLI env a).trace).map Prod.fst = chunks ∧
      (translateCLI env a).exit = .returned ∧
      (∀ (i : Nat) (c : GoString), chunks[i]? = some c →
        0 ≤ (chunkBounds p i).1 ∧ (chunkBounds p i).1 < (chunkBounds p i).2 ∧
        (chunkBounds p i).2 ≤ len p.inputData ∧
        slice p.inputData (chunkBounds p i).1 (chunkBounds p i).2 = some c ∧
        (i + 1 < chunks.length → len c = p.settings.MaxRequestSize) ∧
        (i + 1 = chunks.length → 1 ≤ len c ∧ len c ≤ p.settings.MaxRequestSize)) ∧
      chunks.flatten = p.inputData := by
  obtain ⟨hexit, _, hchunks⟩ := run_of_success env a p rem hprep hM hlen hq hrem hall
  rw [if_neg (by omega)] at hchunks
  have hm : p.settings.MaxRequestSize = ((p.settings.MaxRequestSize.toNat : Nat) : Int) :=
    (Int.toNat_of_nonneg (by omega)).symm
  generalize p.settings.MaxRequestSize.toNat = m at hm
  have hpos : 0 < m := by omega
  have hltn : m < p.inputData.length := by unfold len at hlt; omega
  have hT := totalChunks_eq p m hm hpos hltn hlen
  have hcast : (0 : Int) = ((0 : Nat) : Int) := rfl
  have hloop : loopChunks p (totalChunks p).toNat 0 =
      ((List.range' 0 ((p.inputData.length + m - 1) / m)).map (chunkAt p.inputData m)).map
        some := by
    rw [hT, Int.toNat_ofNat, hcast, loopChunks_eq p m hm hpos hltn hlen _ 0 (by omega),
      List.map_map]
    rfl
  obtain ⟨hb1, hb2, hb3⟩ := ceilDiv_bounds p.inputData.length m hpos (by omega)
  refine ⟨(List.range' 0 ((p.inputData.length + m - 1) / m)).map (chunkAt p.inputData m),
    hloop, ?_, hexit, ?_, ?_⟩
  · rw [hloop] at hchunks
    have hmap : (translateCalls (translateCLI env a).trace).map (fun c => some c.1) =
        ((translateCalls (translateCLI env a).trace).map Prod.fst).map some := by
      rw [List.map_map]; rfl
    rw [hmap] at hchunks
    exact List.map_injective_iff.mpr (Option.some_injective _) hchunks
  · intro i c hc
    obtain ⟨hi, rfl⟩ := chunkAt_of_index _ _ _ _ _ hc
    have hkm : i * m < p.inputData.length :=
      index_mul_lt p.inputData.length m i hpos (by omega) hi
    rw [chunkBounds_eq p m i hm hltn hlen hkm]
    simp only [List.length_map, List.length_range']
    have hclen : len (chunkAt p.inputData m i) =
        ((min m (p.inputData.length - i * m) : Nat) : Int) := by
      simp [len, chunkAt, List.length_take, List.length_drop]
    refine ⟨by omega, by omega, by unfold len; omega, slice_chunkAt _ m i hkm, ?_, ?_⟩
    · intro hnext
      have : (i + 1) * m ≤ ((p.inputData.length + m - 1) / m - 1) * m :=
        Nat.mul_le_mul_right m (by omega)
      have e : (i + 1) * m = i * m + m := by ring
      rw [hclen, hm]
      omega
    · intro _
      rw [hclen, hm]
      omega
  · rw [flatten_chunkAt]
    simp only [Nat.zero_mul, List.drop_zero]
    exact List.take_of_length_le hb2

theorem translateCLI_chunks_partition_witness :
    (prepare (sampleEnv (some 4) 99 ⟨some 10, some 500000⟩)
        (sampleArgs (goStr "hello world") (goStr "screen")) =
          .ok (samplePrepared 4 (goStr "hello world")) ∧
      1 ≤ (samplePrepared 4 (goStr "hello world")).settings.MaxRequestSize ∧
      (samplePrepared 4 (goStr "hello world")).settings.MaxRequestSize <
        len (samplePrepared 4 (goStr "hello world")).inputData ∧
      (samplePrepared 4 (goStr "hello world")).inputData.length < 2 ^ 62 ∧
      getRemainingCharacterLimit (sampleEnv (some 4) 99 ⟨some 10, some 500000⟩) []
        (samplePrepared 4 (goStr "hello world")).apiKey
        (samplePrepared 4 (goStr "hello world")).freeAPI = .ret 499990 none ∧
      len (samplePrepared 4 (goStr "hello world")).inputData ≤ 499990 ∧
      ∀ c ∈ translateCalls (translateCLI (sampleEnv (some 4) 99 ⟨some 10, some 500000⟩)
        (sampleArgs (goStr "hello world") (goStr "screen"))).trace, Ret.succeeded c.2 = true) ∧
    ∃ chunks : List GoString,
      loopChunks (samplePrepared 4 (goStr "hello world"))
        (totalChunks (samplePrepared 4 (goStr "hello world"))).toNat 0 = chunks.map some ∧
      (translateCalls (translateCLI (sampleEnv (some 4) 99 ⟨some 10, some 500000⟩)
        (sampleArgs (goStr "hello world") (goStr "screen"))).trace).map Prod.fst = chunks ∧
      chunks.flatten = (samplePrepared 4 (goStr "hello world")).inputData :=
  ⟨⟨by rfl, by decide, by decide, by decide, by decide, by decide, by decide⟩,
    (translateCLI_chunks_partition (sampleEnv (some 4) 99 ⟨some 10, some 500000⟩)
      (sampleArgs (goStr "hello world") (goStr "screen"))
      (samplePrepared 4 (goStr "hello world")) 499990 (by rfl) (by decide) (by decide)
      (by decide) (by decide) (by decide) (by decide)).imp
      (fun _ h => ⟨h.1, h.2.1, h.2.2.2.2⟩)⟩


theorem prepare_error_quiet (env : Env) (a : Args) (tr : List Event)
    (h : prepare env a = .error tr) :
    afterFailure tr = none ∧ translateCalls tr = [] ∧ outputs tr = [] := by
  unfold prepare at h
  dsimp only at h
  repeat' split at h
  all_goals cases h
  all_goals exact ⟨rfl, rfl, rfl⟩

/-- Claim C3: when a `translateChunk` call of `translateCLI` returns an error, in the single
request or at any chunk of the loop, the only thing that happens after it is the printing of
the error message: no later chunk is sent, no call is made again, and the whole run writes no
output file and prints no translated text; the function returns. -/
theorem translateCLI_stops_on_error (env : Env) (a : Args) (rest : List Event)
    (h : afterFailure (translateCLI env a).trace = some rest) :
    (∃ err, rest = [.stdout (goStr "Error translating text: " ++ err ++ goStr "\n")] ∨
        rest = [.stdout (goStr "Error translating chunk: " ++ err ++ goStr "\n")]) ∧
      outputs (translateCLI env a).trace = [] ∧
      (translateCLI env a).exit = .returned := by
  cases hprep : prepare env a with
  | error tr =>
    have hrun : translateCLI env a = ⟨tr, .returned⟩ := by simp only [translateCLI, hprep]
    rw [hrun] at h
    rw [(prepare_error_quiet env a tr hprep).1] at h
    cases h
  | ok p =>
    have hrun : translateCLI env a = translatePrepared env a p := by
      simp only [translateCLI, hprep]
    rw [hrun] at h ⊢
    obtain ⟨v, err, hq⟩ := getRemainingCharacterLimit_returns env [] p.apiKey p.freeAPI
    cases err with
    | some err =>
      simp [translatePrepared, hq, afterFailure] at h
    | none =>
      by_cases hrem : len p.inputData ≤ v
      · rw [translatePrepared_pass env a p v hq hrem] at h ⊢
        obtain ⟨evs, hout, hshape⟩ :=
          translateData_shape env p [Event.quota p.apiKey p.freeAPI (.ret v none)]
        rcases hshape with ⟨text, hd, hnf, _⟩ | ⟨hd, ⟨err, herr⟩, _⟩ | ⟨msg, hd, hnf, _⟩
        · obtain ⟨evs2, h2, _, _, hnf2⟩ := writeOutput_shape env a p
            ([Event.quota p.apiKey p.freeAPI (.ret v none)] ++ evs) text
          rw [hd] at h
          simp only [h2] at h
          simp [afterFailure_append, afterFailure, hnf, hnf2] at h
        · rw [hd] at h ⊢
          have h2 : afterFailure evs = some rest := h
          refine ⟨⟨err, ?_⟩, ?_, rfl⟩
          · rcases herr with he | he
            · rw [he] at h2
              exact Or.inl (Option.some.inj h2).symm
            · rw [he] at h2
              exact Or.inr (Option.some.inj h2).symm
          · simp [outputs_append, outputs, hout]
        · rw [hd] at h
          simp [afterFailure_append, afterFailure, hnf] at h
      · have hgt : v < len p.inputData := not_le.mp hrem
        simp [translatePrepared, hq, hgt, afterFailure] at h

theorem translateCLI_stops_on_error_witness :
    afterFailure (translateCLI (sampleEnv (some 4) 1 ⟨some 10, some 500000⟩)
        (sampleArgs (goStr "hello world") (goStr "screen"))).trace =
      some [.stdout (goStr "Error translating chunk: " ++
        APIErrorMsg (goStr "busy") 503 (goStr "<h1>busy</h1>") ++ goStr "\n")] ∧
    outputs (translateCLI (sampleEnv (some 4) 1 ⟨some 10, some 500000⟩)
        (sampleArgs (goStr "hello world") (goStr "screen"))).trace = [] ∧
    (translateCalls (translateCLI (sampleEnv (some 4) 1 ⟨some 10, some 500000⟩)
        (sampleArgs (goStr "hello world") (goStr "screen"))).trace).length = 2 :=
  ⟨by decide,
    (translateCLI_stops_on_error (sampleEnv (some 4) 1 ⟨some 10, some 500000⟩)
      (sampleArgs (goStr "hello world") (goStr "screen"))
      [.stdout (goStr "Error translating chunk: " ++
        APIErrorMsg (goStr "busy") 503 (goStr "<h1>busy</h1>") ++ goStr "\n")]
      (by decide)).2.1,
    by decide⟩

/-- Claim C4: when the first `getRemainingCharacterLimit` call of `translateCLI` returns an
error, or returns a count that is less than the byte length of the input, the run consists
of that call and one message: no `translateChunk` call is issued and no output is written
or printed. -/
theorem translateCLI_quota_gate (env : Env) (a : Args) (p : Prepared) (v : Int)
    (err : Option GoString)
    (hprep : prepare env a = .ok p)
    (hq : getRemainingCharacterLimit env [] p.apiKey p.freeAPI = .ret v err)
    (hgate : err ≠ none ∨ len p.inputData > v) :
    translateCalls (translateCLI env a).trace = [] ∧
      outputs (translateCLI env a).trace = [] ∧
      (translateCLI env a).exit = .returned ∧
      ∃ msg, (translateCLI env a).trace =
        [.quota p.apiKey p.freeAPI (.ret v err), .stdout msg] := by
  have hrun : translateCLI env a = translatePrepared env a p := by
    simp only [translateCLI, hprep]
  rw [hrun]
  cases err with
  | some e =>
    simp [translatePrepared, hq, translateCalls, outputs]
  | none =>
    have hgt : len p.inputData > v := by
      rcases hgate with h | h
      · exact absurd rfl h
      · exact h
    simp [translatePrepared, hq, hgt, translateCalls, outputs]

theorem translateCLI_quota_gate_witness :
    (prepare (sampleEnv none 99 ⟨some 499995, some 500000⟩)
        (sampleArgs (goStr "hello world") (goStr "file")) =
          .ok (samplePrepared 8192 (goStr "hello world")) ∧
      getRemainingCharacterLimit (sampleEnv none 99 ⟨some 499995, some 500000⟩) []
        (samplePrepared 8192 (goStr "hello world")).apiKey
        (samplePrepared 8192 (goStr "hello world")).freeAPI = .ret 5 none ∧
      ((none : Option GoString) ≠ none ∨
        len (samplePrepared 8192 (goStr "hello world")).inputData > 5)) ∧
    translateCalls (translateCLI (sampleEnv none 99 ⟨some 499995, some 500000⟩)
        (sampleArgs (goStr "hello world") (goStr "file"))).trace = [] ∧
    outputs (translateCLI (sampleEnv none 99 ⟨some 499995, some 500000⟩)
        (sampleArgs (goStr "hello world") (goStr "file"))).trace = [] :=
  ⟨⟨by rfl, by decide, by decide⟩,
    (translateCLI_quota_gate (sampleEnv none 99 ⟨some 499995, some 500000⟩)
      (sampleArgs (goStr "hello world") (goStr "file"))
      (samplePrepared 8192 (goStr "hello world")) 5 none (by rfl) (by decide)
      (by decide)).imp_right (fun h => h.1) |> fun h => ⟨h.1, h.2⟩⟩


/-! ### Validation of the invocation -/

theorem prepare_error_events (env : Env) (a : Args) (tr : List Event)
    (h : prepare env a = .error tr) :
    remoteCalls tr = [] ∧ ∀ e ∈ tr, (∃ msg, e = .stdout msg) ∨ e = .flagUsage := by
  unfold prepare at h
  dsimp only at h
  repeat' split at h
  all_goals cases h
  all_goals exact ⟨rfl, by simp⟩

theorem prepare_checks (env : Env) (a : Args) :
    ∃ rest : Except (List Event) Prepared, prepare env a =
      if a.inputString = [] ∧ a.inputFile = [] then
        .error [.stdout (goStr "Either input_file or input_string must be provided\n"),
          .flagUsage]
      else if a.inputFile ≠ [] ∧
          !stringsContains (env.typeByExtension (filepathExt a.inputFile)) (goStr "text") then
        .error [.stdout (goStr "Input file must be a text file\n")]
      else if (if a.apiKey = [] then (loadedSettings env).APIKey else a.apiKey) = [] then
        .error [.stdout (goStr "API key is required\n"), .flagUsage]
      else if
          (if a.sourceLang = [] then (loadedSettings env).SourceLang else a.sourceLang) = [] ∨
          (if a.targetLang = [] then (loadedSettings env).TargetLang else a.targetLang) = [] then
        .error [.stdout (goStr "source_lang and target_lang parameters are required\n"),
          .flagUsage]
      else rest :=
  ⟨_, rfl⟩

theorem prepare_rejects (env : Env) (a : Args)
    (h : (a.inputString = [] ∧ a.inputFile = []) ∨
      (if a.apiKey = [] then (loadedSettings env).APIKey else a.apiKey) = [] ∨
      (if a.sourceLang = [] then (loadedSettings env).SourceLang else a.sourceLang) = [] ∨
      (if a.targetLang = [] then (loadedSettings env).TargetLang else a.targetLang) = []) :
    ∃ tr, prepare env a = .error tr := by
  obtain ⟨rest, hp⟩ := prepare_checks env a
  rw [hp]
  by_cases h1 : a.inputString = [] ∧ a.inputFile = []
  · rw [if_pos h1]
    exact ⟨_, rfl⟩
  · rw [if_neg h1]
    split
    · exact ⟨_, rfl⟩
    · by_cases h3 : (if a.apiKey = [] then (loadedSettings env).APIKey else a.apiKey) = []
      · rw [if_pos h3]
        exact ⟨_, rfl⟩
      · rw [if_neg h3]
        by_cases h4 :
            (if a.sourceLang = [] then (loadedSettings env).SourceLang else a.sourceLang) = [] ∨
            (if a.targetLang = [] then (loadedSettings env).TargetLang else a.targetLang) = []
        · rw [if_pos h4]
          exact ⟨_, rfl⟩
        · exfalso
          rcases h with h | h | h | h
          · exact h1 h
          · exact h3 h
          · exact h4 (Or.inl h)
          · exact h4 (Or.inr h)

/-- Claim C11: when `input_string` and `input_file` are both empty, or the API key is empty
after the fallback to the settings file, or the source or the target language code is empty
after that fallback, `translateCLI` returns after printing messages only: no remote call,
quota or translate, is issued and no output is written. -/
theorem translateCLI_rejects_invalid (env : Env) (a : Args)
    (h : (a.inputString = [] ∧ a.inputFile = []) ∨
      (if a.apiKey = [] then (loadedSettings env).APIKey else a.apiKey) = [] ∨
      (if a.sourceLang = [] then (loadedSettings env).SourceLang else a.sourceLang) = [] ∨
      (if a.targetLang = [] then (loadedSettings env).TargetLang else a.targetLang) = []) :
    remoteCalls (translateCLI env a).trace = [] ∧
      outputs (translateCLI env a).trace = [] ∧
      (translateCLI env a).exit = .returned ∧
      ∀ e ∈ (translateCLI env a).trace, (∃ msg, e = .stdout msg) ∨ e = .flagUsage := by
  obtain ⟨tr, htr⟩ := prepare_rejects env a h
  have hrun : translateCLI env a = ⟨tr, .returned⟩ := by simp only [translateCLI, htr]
  rw [hrun]
  exact ⟨(prepare_error_events env a tr htr).1, (prepare_error_quiet env a tr htr).2.2, rfl,
    (prepare_error_events env a tr htr).2⟩

theorem translateCLI_rejects_invalid_witness :
    ((sampleArgs (goStr "hello") (goStr "file")).inputString = [] ∧
        (sampleArgs (goStr "hello") (goStr "file")).inputFile = [] ∨
      (if (sampleArgs (goStr "hello") (goStr "file")).apiKey = []
        then (loadedSettings bareEnv).APIKey
        else (sampleArgs (goStr "hello") (goStr "file")).apiKey) = [] ∨
      (if (sampleArgs (goStr "hello") (goStr "file")).sourceLang = []
        then (loadedSettings bareEnv).SourceLang
        else (sampleArgs (goStr "hello") (goStr "file")).sourceLang) = [] ∨
      (if (sampleArgs (goStr "hello") (goStr "file")).targetLang = []
        then (loadedSettings bareEnv).TargetLang
        else (sampleArgs (goStr "hello") (goStr "file")).targetLang) = []) ∧
    remoteCalls (translateCLI bareEnv (sampleArgs (goStr "hello") (goStr "file"))).trace = [] ∧
    outputs (translateCLI bareEnv (sampleArgs (goStr "hello") (goStr "file"))).trace = [] :=
  ⟨by decide,
    (translateCLI_rejects_invalid bareEnv (sampleArgs (goStr "hello") (goStr "file"))
      (by decide)).1,
    (translateCLI_rejects_invalid bareEnv (sampleArgs (goStr "hello") (goStr "file"))
      (by decide)).2.1⟩

/-! ### The free/paid flag of a run -/

theorem remoteFreeAPI_append (xs ys : List Event) :
    remoteFreeAPI (xs ++ ys) = remoteFreeAPI xs ++ remoteFreeAPI ys := by
  induction xs with
  | nil => rfl
  | cons e xs ih => cases e <;> simp [remoteFreeAPI, ih]

theorem remoteFreeAPI_okEvents (p : Prepared) (cs : List (GoString × GoString)) :
    remoteFreeAPI (okEvents p cs) = List.replicate cs.length p.freeAPI := by
  induction cs with
  | nil => rfl
  | cons ct cs ih => simp [okEvents, translateEvent, remoteFreeAPI, ih, List.replicate_succ]

theorem replicate_append_one (k : Nat) (f : GoString) :
    List.replicate k f ++ [f] = List.replicate (k + 1) f := by
  rw [List.replicate_succ']

theorem remoteFreeAPI_translateData (env : Env) (p : Prepared) (tr : List Event) :
    ∃ k, remoteFreeAPI (translateData env p tr).trace =
      remoteFreeAPI tr ++ List.replicate k p.freeAPI := by
  by_cases hle : len p.inputData ≤ p.settings.MaxRequestSize
  · refine ⟨1, ?_⟩
    unfold translateData
    rw [if_pos hle]
    dsimp only
    split <;> simp [LoopOut.trace, remoteFreeAPI_append, remoteFreeAPI]
  · by_cases hz : p.settings.MaxRequestSize = 0
    · refine ⟨0, ?_⟩
      have hle0 : ¬ len p.inputData ≤ 0 := by rw [hz] at hle; exact hle
      simp only [translateData, hz, hle0, if_false, if_true, LoopOut.trace, List.replicate_zero,
        List.append_nil]
    · have hdata : translateData env p tr =
          match chunkLoop env p (totalChunks p).toNat 0 tr [] with
          | .done tr text => .done (tr ++ [.stdout (goStr "\n")]) text
          | out => out := by
        simp only [translateData, hle, hz, if_false]
      obtain ⟨cs, _, hshape⟩ := chunkLoop_shape env p (totalChunks p).toNat 0 tr []
      rcases hshape with ⟨_, h⟩ | ⟨c, v, err, _, h⟩ | ⟨c, msg, _, h⟩ | ⟨_, h⟩
      · refine ⟨cs.length, ?_⟩
        rw [hdata, h]
        simp [LoopOut.trace, remoteFreeAPI_append, remoteFreeAPI_okEvents, remoteFreeAPI]
      · refine ⟨cs.length + 1, ?_⟩
        rw [hdata, h]
        simp [LoopOut.trace, remoteFreeAPI_append, remoteFreeAPI_okEvents, remoteFreeAPI,
          translateEvent, replicate_append_one]
      · refine ⟨cs.length + 1, ?_⟩
        rw [hdata, h]
        simp [LoopOut.trace, remoteFreeAPI_append, remoteFreeAPI_okEvents, remoteFreeAPI,
          translateEvent, replicate_append_one]
      · refine ⟨cs.length, ?_⟩
        rw [hdata, h]
        simp [LoopOut.trace, remoteFreeAPI_append, remoteFreeAPI_okEvents]

theorem remoteFreeAPI_reportRemaining (env : Env) (p : Prepared) (tr : List Event) :
    remoteFreeAPI (reportRemaining env p tr).trace = remoteFreeAPI tr ++ [p.freeAPI] := by
  obtain ⟨v, err, hr⟩ := getRemainingCharacterLimit_returns env tr p.apiKey p.freeAPI
  cases err with
  | some err => simp [reportRemaining, hr, remoteFreeAPI_append, remoteFreeAPI]
  | none => simp [reportRemaining, hr, remoteFreeAPI_append, remoteFreeAPI]

theorem remoteFreeAPI_writeOutput (env : Env) (a : Args) (p : Prepared) (tr : List Event)
    (text : GoString) :
    ∃ k, remoteFreeAPI (writeOutput env a p tr text).trace =
      remoteFreeAPI tr ++ List.replicate k p.freeAPI := by
  by_cases hscreen : a.output = goStr "screen"
  · refine ⟨1, ?_⟩
    simp only [writeOutput, hscreen, if_true, remoteFreeAPI_reportRemaining]
    simp [remoteFreeAPI_append, remoteFreeAPI]
  · obtain ⟨name, hname⟩ := outputFileName_some a
    cases hw : env.writeFile tr name text with
    | some err =>
      refine ⟨0, ?_⟩
      simp [writeOutput, hscreen, hname, hw, remoteFreeAPI_append, remoteFreeAPI]
    | none =>
      refine ⟨1, ?_⟩
      simp only [writeOutput, hscreen, if_false, hname, hw, remoteFreeAPI_reportRemaining]
      simp [remoteFreeAPI_append, remoteFreeAPI]

theorem remoteFreeAPI_translatePrepared (env : Env) (a : Args) (p : Prepared) :
    ∃ k, remoteFreeAPI (translatePrepared env a p).trace = List.replicate k p.freeAPI := by
  obtain ⟨v, err, hq⟩ := getRemainingCharacterLimit_returns env [] p.apiKey p.freeAPI
  cases err with
  | some err =>
    exact ⟨1, by simp [translatePrepared, hq, remoteFreeAPI]⟩
  | none =>
    by_cases hrem : len p.inputData ≤ v
    · rw [translatePrepared_pass env a p v hq hrem]
      obtain ⟨k, hk⟩ :=
        remoteFreeAPI_translateData env p [Event.quota p.apiKey p.freeAPI (.ret v none)]
      cases hd : translateData env p [Event.quota p.apiKey p.freeAPI (.ret v none)] with
      | abort tr =>
        rw [hd] at hk
        refine ⟨k + 1, ?_⟩
        simp only [LoopOut.trace] at hk
        simp only [hk, remoteFreeAPI, List.replicate_succ, List.cons_append, List.nil_append]
      | panic tr msg =>
        rw [hd] at hk
        refine ⟨k + 1, ?_⟩
        simp only [LoopOut.trace] at hk
        simp only [hk, remoteFreeAPI, List.replicate_succ, List.cons_append, List.nil_append]
      | done tr text =>
        rw [hd] at hk
        simp only [LoopOut.trace] at hk
        obtain ⟨k2, hk2⟩ := remoteFreeAPI_writeOutput env a p tr text
        refine ⟨k + 1 + k2, ?_⟩
        simp only [hk2, hk, remoteFreeAPI, List.cons_append, List.nil_append]
        rw [List.append_replicate_replicate, ← List.replicate_succ]
        congr 1
        omega
    · have hgt : v < len p.inputData := not_le.mp hrem
      exact ⟨1, by simp [translatePrepared, hq, hgt, remoteFreeAPI]⟩

theorem prepare_freeAPI (env : Env) (a : Args) (p : Prepared) (h : prepare env a = .ok p) :
    p.freeAPI =
      (if env.flagFreeAPI = [] then
        (if (loadedSettings env).FreeAPI = [] then goStr "yes" else (loadedSettings env).FreeAPI)
       else env.flagFreeAPI) := by
  have hp : prepare env a =
      if a.inputString = [] ∧ a.inputFile = [] then
        .error [.stdout (goStr "Either input_file or input_string must be provided\n"),
          .flagUsage]
      else if a.inputFile ≠ [] ∧
          !stringsContains (env.typeByExtension (filepathExt a.inputFile)) (goStr "text") then
        .error [.stdout (goStr "Input file must be a text file\n")]
      else if (if a.apiKey = [] then (loadedSettings env).APIKey else a.apiKey) = [] then
        .error [.stdout (goStr "API key is required\n"), .flagUsage]
      else if
          (if a.sourceLang = [] then (loadedSettings env).SourceLang else a.sourceLang) = [] ∨
          (if a.targetLang = [] then (loadedSettings env).TargetLang else a.targetLang) = [] then
        .error [.stdout (goStr "source_lang and target_lang parameters are required\n"),
          .flagUsage]
      else if a.inputString ≠ [] then
        .ok ⟨loadedSettings env,
          if a.apiKey = [] then (loadedSettings env).APIKey else a.apiKey,
          if env.flagFreeAPI = [] then
            (if (loadedSettings env).FreeAPI = [] then goStr "yes"
             else (loadedSettings env).FreeAPI)
          else env.flagFreeAPI,
          if a.sourceLang = [] then (loadedSettings env).SourceLang else a.sourceLang,
          if a.targetLang = [] then (loadedSettings env).TargetLang else a.targetLang,
          a.inputString⟩
      else
        match env.readFile a.inputFile with
        | .error err =>
          .error [.stdout (goStr "Error reading input file: " ++ err ++ goStr "\n")]
        | .ok inputData =>
          .ok ⟨loadedSettings env,
            if a.apiKey = [] then (loadedSettings env).APIKey else a.apiKey,
            if env.flagFreeAPI = [] then
              (if (loadedSettings env).FreeAPI = [] then goStr "yes"
               else (loadedSettings env).FreeAPI)
            else env.flagFreeAPI,
            if a.sourceLang = [] then (loadedSettings env).SourceLang else a.sourceLang,
            if a.targetLang = [] then (loadedSettings env).TargetLang else a.targetLang,
            inputData⟩ := rfl
  rw [hp] at h
  by_cases h1 : a.inputString = [] ∧ a.inputFile = []
  · rw [if_pos h1] at h; cases h
  rw [if_neg h1] at h
  by_cases h2 : a.inputFile ≠ [] ∧
      (!stringsContains (env.typeByExtension (filepathExt a.inputFile)) (goStr "text")) = true
  · rw [if_pos h2] at h; cases h
  rw [if_neg h2] at h
  by_cases h3 : (if a.apiKey = [] then (loadedSettings env).APIKey else a.apiKey) = []
  · rw [if_pos h3] at h; cases h
  rw [if_neg h3] at h
  by_cases h4 :
      (if a.sourceLang = [] then (loadedSettings env).SourceLang else a.sourceLang) = [] ∨
      (if a.targetLang = [] then (loadedSettings env).TargetLang else a.targetLang) = []
  · rw [if_pos h4] at h; cases h
  rw [if_neg h4] at h
  by_cases h5 : a.inputString ≠ []
  · rw [if_pos h5] at h
    injection h with h
    rw [← h]
  · rw [if_neg h5] at h
    cases hr : env.readFile a.inputFile with
    | error err => rw [hr] at h; cases h
    | ok inputData =>
      rw [hr] at h
      injection h with h
      rw [← h]

theorem remoteFreeAPI_of_messages (tr : List Event)
    (h : ∀ e ∈ tr, (∃ msg, e = .stdout msg) ∨ e = .flagUsage) : remoteFreeAPI tr = [] := by
  induction tr with
  | nil => rfl
  | cons e tr ih =>
    have ht := ih (fun e he => h e (List.mem_cons_of_mem _ he))
    rcases h e (List.mem_cons_self _ _) with ⟨msg, rfl⟩ | rfl
    · simpa [remoteFreeAPI] using ht
    · simpa [remoteFreeAPI] using ht

/-- Claim C12, as the code runs it: `main` of main.go declares the `free_api` flag with the
default "yes", so without the flag on the command line every remote call is made with "yes",
also when the settings file says "no" (the `main` of translator.go, whose flag has the default
"", takes "no" from those settings). In general the flag of every remote call of a run
through `main` is the text of the `free_api` flag, given or default, and the value of the
settings is used only when that text is empty. -/
theorem main_free_api_default :
    (loadedSettings paidSettingsEnv).FreeAPI = goStr "no" ∧
    main paidSettingsEnv (sampleCommandLine (goStr "hello")) =
      .cli ⟨[.quota (goStr "key") (goStr "yes") (.ret 499990 none),
        .translate (goStr "key") (goStr "EN") (goStr "DE") (goStr "yes") (goStr "hello")
          (.ret (goStr "hello") none),
        .stdout (goStr "Translated Text:\n"), .printTranslated (goStr "hello"),
        .quota (goStr "key") (goStr "yes") (.ret 499990 none),
        .stdout (goStr "Remaining character limit: 499990\n")], .returned⟩ ∧
    TranslatorGo.mainFreeAPI (sampleCommandLine (goStr "hello")).free_api
      (loadedSettings paidSettingsEnv) = goStr "no" ∧
    ∀ (env : Env) (cmd : CommandLine) (run : Run), main env cmd = .cli run →
      ∀ f ∈ remoteFreeAPI run.trace,
        f = (if cmd.free_api.getD (goStr "yes") = [] then
              (if (loadedSettings env).FreeAPI = [] then goStr "yes"
               else (loadedSettings env).FreeAPI)
             else cmd.free_api.getD (goStr "yes")) := by
  refine ⟨by decide, by decide, by decide, ?_⟩
  intro env cmd run hmain f hf
  unfold main at hmain
  dsimp only at hmain
  split at hmain
  · cases hmain
  · injection hmain with hrun
    subst hrun
    unfold translateCLI at hf
    split at hf
    · rename_i tr htr
      rw [remoteFreeAPI_of_messages tr (prepare_error_events _ _ tr htr).2] at hf
      cases hf
    · rename_i p hp
      obtain ⟨k, hk⟩ := remoteFreeAPI_translatePrepared
        { env with flagFreeAPI := cmd.free_api.getD (goStr "yes") } _ p
      rw [hk] at hf
      rw [List.eq_of_mem_replicate hf, prepare_freeAPI _ _ p hp]
      rfl

/-! ### The translate response -/

/-- Claim C13: for a translate response with status 200 whose body decodes without error,
`translateChunk` returns (a text or an error) exactly when the decoded translations list is
not empty, and then it returns the text of the first translation with a `nil` error,
whatever the further translations are; when the list is empty or absent the index 0 is out
of range: the call panics and returns nothing. -/
theorem translateChunk_first_translation (env : Env) (hist : List Event)
    (apiKey sourceLang targetLang freeAPI chunk : GoString) (resp : Response)
    (js : Option (List (Option GoString)))
    (hreq : makeAPIRequest env hist (getAPIURL (goStr "translate") freeAPI) apiKey
      [(goStr "text", chunk), (goStr "source_lang", sourceLang),
        (goStr "target_lang", targetLang)] = .ok resp)
    (hstatus : resp.StatusCode = 200) (hjs : env.decodeDeepL resp.Body = .ok js) :
    ((∃ v err, translateChunk env hist apiKey sourceLang targetLang freeAPI chunk = .ret v err) ↔
        js.getD [] ≠ []) ∧
      (∀ t rest, js.getD [] = t :: rest →
        translateChunk env hist apiKey sourceLang targetLang freeAPI chunk =
          .ret (t.getD []) none) ∧
      ((js = none ∨ js = some []) →
        translateChunk env hist apiKey sourceLang targetLang freeAPI chunk =
          .panic (goStr "index out of range [0] with length 0")) := by
  have hcons : ∀ t rest, js.getD [] = t :: rest →
      translateChunk env hist apiKey sourceLang targetLang freeAPI chunk =
        .ret (t.getD []) none := by
    intro t rest h
    unfold translateChunk
    simp only [hreq, hstatus, hjs, h, ne_eq, not_true_eq_false, if_false, List.map_cons]
  have hnil : js.getD [] = [] →
      translateChunk env hist apiKey sourceLang targetLang freeAPI chunk =
        .panic (goStr "index out of range [0] with length 0") := by
    intro h
    unfold translateChunk
    simp only [hreq, hstatus, hjs, h, ne_eq, not_true_eq_false, if_false, List.map_nil]
  refine ⟨⟨?_, ?_⟩, hcons, ?_⟩
  · rintro ⟨v, err, hret⟩ hempty
    rw [hnil hempty] at hret
    cases hret
  · intro hne
    cases hl : js.getD [] with
    | nil => exact absurd hl hne
    | cons t rest => exact ⟨_, _, hcons t rest hl⟩
  · rintro (h | h)
    · exact hnil (by rw [h]; rfl)
    · exact hnil (by rw [h]; rfl)

theorem translateChunk_first_translation_witness :
    (makeAPIRequest (sampleEnv none 99 ⟨none, none⟩) []
        (getAPIURL (goStr "translate") (goStr "yes")) (goStr "key")
        [(goStr "text", goStr "hello"), (goStr "source_lang", goStr "EN"),
          (goStr "target_lang", goStr "DE")] = .ok ⟨200, goStr "hello"⟩ ∧
      (⟨200, goStr "hello"⟩ : Response).StatusCode = 200 ∧
      (sampleEnv none 99 ⟨none, none⟩).decodeDeepL (⟨200, goStr "hello"⟩ : Response).Body =
        .ok (some [some (goStr "hello")])) ∧
    translateChunk (sampleEnv none 99 ⟨none, none⟩) [] (goStr "key") (goStr "EN") (goStr "DE")
        (goStr "yes") (goStr "hello") = .ret (goStr "hello") none :=
  ⟨⟨by rfl, by rfl, by rfl⟩,
    (translateChunk_first_translation (sampleEnv none 99 ⟨none, none⟩) [] (goStr "key")
      (goStr "EN") (goStr "DE") (goStr "yes") (goStr "hello") ⟨200, goStr "hello"⟩
      (some [some (goStr "hello")]) (by rfl) (by rfl) (by rfl)).2.1 (some (goStr "hello")) []
      (by rfl)⟩

/-! ### A maximum request size that is not positive -/

theorem totalChunks_of_neg (p : Prepared) (hne : p.inputData ≠ [])
    (hM : p.settings.MaxRequestSize < 0) (hMmin : -(2 ^ 63) ≤ p.settings.MaxRequestSize)
    (hlen : p.inputData.length < 2 ^ 62) :
    totalChunks p ≤ 0 ∨ (totalChunks p = 1 ∧ p.inputData.length = 1) := by
  have hpos : 0 < p.inputData.length := List.length_pos.mpr hne
  unfold totalChunks len
  generalize hMd : p.settings.MaxRequestSize = M at hM hMmin
  generalize hLd : (p.inputData.length : Int) = L
  have hL1 : 1 ≤ L := by omega
  have hL2 : L < 2 ^ 62 := by omega
  have hLM : p.inputData.length = 1 ↔ L = 1 := by omega
  rw [hLM]
  rw [wrap64_of_range (L + M) (by omega) (by omega),
    wrap64_of_range (L + M - 1) (by omega) (by omega)]
  by_cases hN : 0 ≤ L + M - 1
  · left
    have hq : (L + M - 1).tdiv M = -((L + M - 1) / (-M)) := by
      have h1 : (L + M - 1).tdiv M = -((L + M - 1).tdiv (-M)) := by
        rw [← Int.tdiv_neg, Int.neg_neg]
      rw [h1, Int.tdiv_eq_ediv hN (by omega)]
    have hnn : 0 ≤ (L + M - 1) / (-M) := Int.ediv_nonneg hN (by omega)
    have hle : (L + M - 1) / (-M) ≤ L + M - 1 := Int.ediv_le_self _ hN
    rw [hq, wrap64_of_range _ (by omega) (by omega)]
    omega
  · have hq : (L + M - 1).tdiv M = (-(L + M - 1)).tdiv (-M) := (Int.neg_tdiv_neg _ _).symm
    by_cases hL : L = 1
    · right
      have : (L + M - 1) = M := by omega
      rw [this, Int.tdiv_self (by omega), wrap64_of_range 1 (by omega) (by omega)]
      exact ⟨rfl, hL⟩
    · left
      rw [hq, Int.tdiv_eq_zero_of_lt (by omega) (by omega),
        wrap64_of_range 0 (by omega) (by omega)]

theorem chunkBounds_zero_of_neg (p : Prepared)
    (hM : p.settings.MaxRequestSize < 0) (hMmin : -(2 ^ 63) ≤ p.settings.MaxRequestSize) :
    chunkBounds p 0 = (0, p.settings.MaxRequestSize) := by
  unfold chunkBounds len
  simp only [Int.zero_mul, Int.zero_add]
  rw [wrap64_of_range 0 (by omega) (by omega), Int.zero_add,
    wrap64_of_range _ hMmin (by omega), if_neg (by omega)]

theorem translateData_of_nonpositive (env : Env) (p : Prepared) (tr : List Event)
    (hne : p.inputData ≠ []) (hM : p.settings.MaxRequestSize ≤ 0)
    (hMmin : -(2 ^ 63) ≤ p.settings.MaxRequestSize) (hlen : p.inputData.length < 2 ^ 62) :
    (p.settings.MaxRequestSize = 0 ∧
        translateData env p tr = .panic tr (goStr "integer divide by zero")) ∨
      (p.settings.MaxRequestSize < 0 ∧ totalChunks p ≤ 0 ∧
        translateData env p tr = .done (tr ++ [.stdout (goStr "\n")]) []) ∨
      (p.settings.MaxRequestSize < 0 ∧ totalChunks p = 1 ∧
        (chunkBounds p 0).2 < (chunkBounds p 0).1 ∧
        slice p.inputData (chunkBounds p 0).1 (chunkBounds p 0).2 = none ∧
        translateData env p tr = .panic tr (goStr "slice bounds out of range")) := by
  have hpos : 0 < p.inputData.length := List.length_pos.mpr hne
  have hle : ¬ len p.inputData ≤ p.settings.MaxRequestSize := by unfold len; omega
  by_cases hz : p.settings.MaxRequestSize = 0
  · refine Or.inl ⟨hz, ?_⟩
    have hle0 : ¬ len p.inputData ≤ 0 := by rw [hz] at hle; exact hle
    simp only [translateData, hz, hle0, if_false, if_true]
  · have hneg : p.settings.MaxRequestSize < 0 := by omega
    have hdata : translateData env p tr =
        match chunkLoop env p (totalChunks p).toNat 0 tr [] with
        | .done tr text => .done (tr ++ [.stdout (goStr "\n")]) text
        | out => out := by
      simp only [translateData, hle, hz, if_false]
    rcases totalChunks_of_neg p hne hneg hMmin hlen with ht | ⟨ht, _⟩
    · refine Or.inr (Or.inl ⟨hneg, ht, ?_⟩)
      rw [hdata, Int.toNat_eq_zero.mpr ht]
      rfl
    · have hb := chunkBounds_zero_of_neg p hneg hMmin
      have hs : slice p.inputData (chunkBounds p 0).1 (chunkBounds p 0).2 = none := by
        rw [hb]
        unfold slice
        rw [if_neg (by omega)]
      refine Or.inr (Or.inr ⟨hneg, ht, by rw [hb]; exact hneg, hs, ?_⟩)
      rw [hdata, ht]
      simp only [Int.toNat_one, chunkLoop, hs]

/-- Claim C14: for a non-empty input and a MaxRequestSize that is zero or negative (a value of
the 64-bit `int` of the settings), `translateCLI` issues no `translateChunk` call. When the
quota check passes, MaxRequestSize = 0 ends in the panic of a division by zero; a negative
MaxRequestSize gives a chunk count that is at most 0, and then the loop runs zero times and
the empty text goes through the output step as a success, or a chunk count of 1 with a slice
whose end is below its start, which panics as out of range. -/
theorem translateCLI_nonpositive_size (env : Env) (a : Args) (p : Prepared)
    (hprep : prepare env a = .ok p) (hne : p.inputData ≠ [])
    (hM : p.settings.MaxRequestSize ≤ 0) (hMmin : -(2 ^ 63) ≤ p.settings.MaxRequestSize)
    (hlen : p.inputData.length < 2 ^ 62) :
    translateCalls (translateCLI env a).trace = [] ∧
      ∀ rem, getRemainingCharacterLimit env [] p.apiKey p.freeAPI = .ret rem none →
        len p.inputData ≤ rem →
        (p.settings.MaxRequestSize = 0 ∧
          translateCLI env a = ⟨[.quota p.apiKey p.freeAPI (.ret rem none)],
            .panicked (goStr "integer divide by zero")⟩) ∨
        (p.settings.MaxRequestSize < 0 ∧ totalChunks p ≤ 0 ∧
          translateCLI env a = writeOutput env a p
            [.quota p.apiKey p.freeAPI (.ret rem none), .stdout (goStr "\n")] [] ∧
          outputs (translateCLI env a).trace = [[]] ∧
          (translateCLI env a).exit = .returned) ∨
        (p.settings.MaxRequestSize < 0 ∧ totalChunks p = 1 ∧
          (chunkBounds p 0).2 < (chunkBounds p 0).1 ∧
          slice p.inputData (chunkBounds p 0).1 (chunkBounds p 0).2 = none ∧
          translateCLI env a = ⟨[.quota p.apiKey p.freeAPI (.ret rem none)],
            .panicked (goStr "slice bounds out of range")⟩) := by
  have hrun : translateCLI env a = translatePrepared env a p := by
    simp only [translateCLI, hprep]
  have hmain : ∀ rem, getRemainingCharacterLimit env [] p.apiKey p.freeAPI = .ret rem none →
      len p.inputData ≤ rem →
      translateCalls (translateCLI env a).trace = [] ∧
      ((p.settings.MaxRequestSize = 0 ∧
          translateCLI env a = ⟨[.quota p.apiKey p.freeAPI (.ret rem none)],
            .panicked (goStr "integer divide by zero")⟩) ∨
        (p.settings.MaxRequestSize < 0 ∧ totalChunks p ≤ 0 ∧
          translateCLI env a = writeOutput env a p
            [.quota p.apiKey p.freeAPI (.ret rem none), .stdout (goStr "\n")] [] ∧
          outputs (translateCLI env a).trace = [[]] ∧
          (translateCLI env a).exit = .returned) ∨
        (p.settings.MaxRequestSize < 0 ∧ totalChunks p = 1 ∧
          (chunkBounds p 0).2 < (chunkBounds p 0).1 ∧
          slice p.inputData (chunkBounds p 0).1 (chunkBounds p 0).2 = none ∧
          translateCLI env a = ⟨[.quota p.apiKey p.freeAPI (.ret rem none)],
            .panicked (goStr "slice bounds out of range")⟩)) := by
    intro rem hq hrem
    rw [hrun, translatePrepared_pass env a p rem hq hrem]
    rcases translateData_of_nonpositive env p [.quota p.apiKey p.freeAPI (.ret rem none)]
      hne hM hMmin hlen with ⟨hz, hd⟩ | ⟨hneg, ht, hd⟩ | ⟨hneg, ht, hb, hs, hd⟩
    · rw [hd]
      exact ⟨rfl, Or.inl ⟨hz, rfl⟩⟩
    · rw [hd]
      obtain ⟨evs, hw, hc, ho, _⟩ := writeOutput_shape env a p
        ([.quota p.apiKey p.freeAPI (.ret rem none)] ++ [.stdout (goStr "\n")]) []
      refine ⟨?_, Or.inr (Or.inl ⟨hneg, ht, rfl, ?_, ?_⟩)⟩
      · simp only [hw]
        simp [translateCalls_append, translateCalls, hc]
      · simp only [hw]
        simp [outputs_append, outputs, ho]
      · simp only [hw]
    · rw [hd]
      exact ⟨rfl, Or.inr (Or.inr ⟨hneg, ht, hb, hs, rfl⟩)⟩
  refine ⟨?_, fun rem hq hrem => (hmain rem hq hrem).2⟩
  obtain ⟨v, err, hq⟩ := getRemainingCharacterLimit_returns env [] p.apiKey p.freeAPI
  cases err with
  | some err =>
    rw [hrun]
    simp [translatePrepared, hq, translateCalls]
  | none =>
    by_cases hrem : len p.inputData ≤ v
    · exact (hmain v hq hrem).1
    · have hgt : v < len p.inputData := not_le.mp hrem
      rw [hrun]
      simp [translatePrepared, hq, hgt, translateCalls]

theorem translateCLI_nonpositive_size_witness :
    (prepare (sampleEnv (some (-3)) 99 ⟨some 10, some 500000⟩)
        (sampleArgs (goStr "hello world") (goStr "file")) =
          .ok (samplePrepared (-3) (goStr "hello world")) ∧
      (samplePrepared (-3) (goStr "hello world")).inputData ≠ [] ∧
      (samplePrepared (-3) (goStr "hello world")).settings.MaxRequestSize ≤ 0 ∧
      -(2 ^ 63) ≤ (samplePrepared (-3) (goStr "hello world")).settings.MaxRequestSize ∧
      (samplePrepared (-3) (goStr "hello world")).inputData.length < 2 ^ 62) ∧
    translateCalls (translateCLI (sampleEnv (some (-3)) 99 ⟨some 10, some 500000⟩)
        (sampleArgs (goStr "hello world") (goStr "file"))).trace = [] ∧
    (translateCLI (sampleEnv (some (-3)) 99 ⟨some 10, some 500000⟩)
        (sampleArgs (goStr "hello world") (goStr "file"))).trace =
      [.quota (goStr "key") (goStr "yes") (.ret 499990 none), .stdout (goStr "\n"),
        .writeFile (goStr "hello_world.txt") [] none,
        .stdout (goStr "Translation successful!\n"),
        .quota (goStr "key") (goStr "yes") (.ret 499990 none),
        .stdout (goStr "Remaining character limit: 499990\n")] ∧
    translateCLI (sampleEnv (some 0) 99 ⟨some 10, some 500000⟩)
        (sampleArgs (goStr "hello world") (goStr "file")) =
      ⟨[.quota (goStr "key") (goStr "yes") (.ret 499990 none)],
        .panicked (goStr "integer divide by zero")⟩ ∧
    translateCLI (sampleEnv (some (-1)) 99 ⟨some 10, some 500000⟩)
        (sampleArgs (goStr "x") (goStr "file")) =
      ⟨[.quota (goStr "key") (goStr "yes") (.ret 499990 none)],
        .panicked (goStr "slice bounds out of range")⟩ :=
  ⟨⟨by rfl, by decide, by decide, by decide, by decide⟩,
    (translateCLI_nonpositive_size (sampleEnv (some (-3)) 99 ⟨some 10, some 500000⟩)
      (sampleArgs (goStr "hello world") (goStr "file"))
      (samplePrepared (-3) (goStr "hello world")) (by rfl) (by decide) (by decide)
      (by decide) (by decide)).1,
    by decide, by decide, by decide⟩

/-! ### The window -/

theorem translateCalls_updateRemainingCharacters (env : Env) (settings : Settings)
    (w : Window) :
    translateCalls (updateRemainingCharacters env settings w).window.calls =
        translateCalls w.calls ∧
      (updateRemainingCharacters env settings w).window.outputTextArea = w.outputTextArea := by
  obtain ⟨v, err, hr⟩ :=
    getRemainingCharacterLimit_returns env w.calls settings.APIKey settings.FreeAPI
  cases err with
  | some err => simp [updateRemainingCharacters, hr, translateCalls_append, translateCalls]
  | none => simp [updateRemainingCharacters, hr, translateCalls_append, translateCalls]

theorem translateCalls_translateAndUpdate (env : Env) (settings : Settings) (w : Window) :
    translateCalls (translateAndUpdate env settings w).window.calls =
      translateCalls w.calls ++ [(w.inputTextArea, translateChunk env w.calls settings.APIKey
        settings.SourceLang settings.TargetLang settings.FreeAPI w.inputTextArea)] := by
  cases hr : translateChunk env w.calls settings.APIKey settings.SourceLang settings.TargetLang
      settings.FreeAPI w.inputTextArea with
  | panic msg =>
    simp [translateAndUpdate, proceedWithTranslation, hr, translateCalls_append, translateCalls]
  | ret v err =>
    cases err with
    | some err =>
      simp only [translateAndUpdate, proceedWithTranslation, hr]
      rw [(translateCalls_updateRemainingCharacters env settings _).1]
      simp [translateCalls_append, translateCalls]
    | none =>
      simp only [translateAndUpdate, proceedWithTranslation, hr]
      rw [(translateCalls_updateRemainingCharacters env settings _).1]
      simp [translateCalls_append, translateCalls]

/-- Claim C15: for every input text and every value of the settings, MaxRequestSize included,
`proceedWithTranslation` issues exactly one `translateChunk` call, with the whole input text,
and sets the output area to the text that call returned only when the call returned no error
(an error is shown in a dialog and the output area is left as it was); the callback of the
translate button, when it goes on, issues that one call and no other translate call. -/
theorem proceedWithTranslation_single_call (env : Env) (inputText : GoString)
    (settings : Settings) (confirmed : Bool) (w : Window) :
    (proceedWithTranslation env inputText settings w).window.calls =
        w.calls ++ [Event.translate settings.APIKey settings.SourceLang settings.TargetLang
          settings.FreeAPI inputText (translateChunk env w.calls settings.APIKey
            settings.SourceLang settings.TargetLang settings.FreeAPI inputText)] ∧
      (proceedWithTranslation env inputText settings w).window.outputTextArea =
        (match translateChunk env w.calls settings.APIKey settings.SourceLang
            settings.TargetLang settings.FreeAPI inputText with
          | .ret translatedText none => translatedText
          | _ => w.outputTextArea) ∧
      (proceedWithTranslation env inputText settings w).window.dialogs =
        (match translateChunk env w.calls settings.APIKey settings.SourceLang
            settings.TargetLang settings.FreeAPI inputText with
          | .ret _ (some err) => w.dialogs ++ [.error err]
          | _ => w.dialogs) ∧
      translateCalls (translateButton env settings confirmed w).window.calls =
        translateCalls w.calls ++
          (if len w.inputTextArea > settings.WarnCharacterLimit ∧ confirmed = false then []
           else [(w.inputTextArea, translateChunk env w.calls settings.APIKey
             settings.SourceLang settings.TargetLang settings.FreeAPI w.inputTextArea)]) ∧
      (proceedWithTranslation (sampleEnv (some 4) 99 ⟨none, none⟩) (goStr "hello world")
          (sampleSettings 4) (sampleWindow (goStr "hello world"))).window =
        ⟨goStr "hello world", goStr "hello world", [], [],
          [.translate (goStr "key") (goStr "EN") (goStr "DE") [] (goStr "hello world")
            (.ret (goStr "hello world") none)]⟩ := by
  refine ⟨?_, ?_, ?_, ?_, by decide⟩
  · unfold proceedWithTranslation
    dsimp only
    split <;> rfl
  · unfold proceedWithTranslation
    dsimp only
    split <;> simp_all
  · unfold proceedWithTranslation
    dsimp only
    split <;> simp_all
  · unfold translateButton
    by_cases hw : len w.inputTextArea > settings.WarnCharacterLimit
    · cases confirmed with
      | false => simp [hw]
      | true =>
        simp only [hw, if_true, translateCalls_translateAndUpdate]
        simp
    · simp only [hw, if_false, false_and, translateCalls_translateAndUpdate]

end DeepL
